import Mathlib

/-!
Verification of the pegen Janet code-generation backend.

This development shallowly embeds the two source files of the repository,
src/pegen/janet_generator.py and src/pegen/build.py, as executable Lean
definitions, and proves properties of the embedding.

Conventions of the embedding:
- Python strings are Lean String values; string scanning and building is done
  on the underlying character lists so that everything reduces in the kernel.
- Python object identity of grammar AST nodes (used as cache keys) is modelled
  by explicit arena indices: the cacheable node kinds (Rhs, Repeat0, Repeat1,
  Gather) carry a Nat id. Distinct AST nodes are expected to carry distinct
  ids; nodes synthesized during generation draw fresh ids from a counter that
  starts above every id occurring in the grammar.
- Python sets of strings are lists maintained with insert-unless-present;
  python dicts keyed by strings are association lists with
  insert-or-overwrite semantics (insertion order preserved).
- The indentation-aware printer of the external ParserGenerator base class
  writes four spaces per indent level. Output is modelled as a list of
  (indent-level, content) pairs; nesting shifts levels by one.
- The generator itself performs no IO; generation is modelled as a pure
  function from the grammar AST to the emitted lines.
-/

namespace Pegen

/-! ## String utilities (character-list based, kernel friendly) -/

/-- The double-quote character. -/
def dquoteC : Char := Char.ofNat 34

/-- The single-quote character. -/
def squoteC : Char := Char.ofNat 39

/-- The backtick character. -/
def backtickC : Char := Char.ofNat 96

/-- Does the pattern (first argument) occur as a leading segment of the list? -/
def leadsList : List Char → List Char → Bool
  | [], _ => true
  | _ :: _, [] => false
  | p :: ps, c :: cs => if p = c then leadsList ps cs else false

/-- Python str.startswith. -/
def strLeads (s pat : String) : Bool := leadsList pat.data s.data

/-- Python str.endswith. -/
def strTrails (s pat : String) : Bool := leadsList pat.data.reverse s.data.reverse

/-- Does the pattern occur anywhere in the list? (Python `in` on strings, for a
nonempty pattern.) -/
def listHas (pat : List Char) : List Char → Bool
  | [] => pat.isEmpty
  | c :: cs => leadsList pat (c :: cs) || listHas pat cs

/-- Python `pat in s`. -/
def strHas (s pat : String) : Bool := listHas pat.data s.data

/-- Left-to-right, non-overlapping replacement of a nonempty pattern, the
semantics of Python str.replace. The fuel argument (instantiated with the
length of the list, which bounds the number of steps) keeps the recursion
structural so that it reduces inside the kernel. An empty pattern returns the
input unchanged (the source only ever replaces nonempty macro names). -/
def listReplaceAux (pat repl : List Char) : Nat → List Char → List Char
  | _, [] => []
  | 0, l => l
  | fuel + 1, c :: cs =>
    if pat ≠ [] ∧ leadsList pat (c :: cs) then
      repl ++ listReplaceAux pat repl fuel ((c :: cs).drop pat.length)
    else
      c :: listReplaceAux pat repl fuel cs

def listReplace (pat repl l : List Char) : List Char := listReplaceAux pat repl l.length l

/-- Python s.replace(pat, repl). -/
def strReplace (s pat repl : String) : String := ⟨listReplace pat.data repl.data s.data⟩

/-- Python s.rstrip of newline characters. -/
def rstripNl (s : String) : String := ⟨(s.data.reverse.dropWhile (fun c => c = '\n')).reverse⟩

/-- Python str.lower for ASCII strings (the only ones the source applies it to). -/
def strLower (s : String) : String := ⟨s.data.map Char.toLower⟩

/-- Printable ASCII: the characters for which Python str.isprintable holds on
the ASCII strings the source asserts it receives. -/
def isPrintableAscii (c : Char) : Bool := 32 ≤ c.toNat && c.toNat ≤ 126

/-- Code-point lexicographic comparison on character lists, the order Python
sorted() uses on strings. -/
def lexLe : List Char → List Char → Bool
  | [], _ => true
  | _ :: _, [] => false
  | a :: as, b :: bs =>
    if a.toNat < b.toNat then true
    else if b.toNat < a.toNat then false
    else lexLe as bs

/-- Python string comparison. -/
def strLeB (a b : String) : Bool := lexLe a.data b.data

/-- The comparison as a relation, for the sorting lemmas. -/
def strLeR (a b : String) : Prop := strLeB a b = true

instance : DecidableRel strLeR := fun a b => by unfold strLeR; infer_instance

/-- Python set.add on the list model of a string set: insert unless present. -/
def setInsert (x : String) (s : List String) : List String :=
  if s.contains x then s else x :: s

/-- No-duplicates check on the list model of a string set. -/
def nodupB : List String → Bool
  | [] => true
  | x :: xs => !xs.contains x && nodupB xs

/-! ## Grammar AST

Modelled from the spec: the grammar AST classes live in pegen/grammar.py,
external to src/. The item variants, their fields and the attribute accesses
used by the two source files fix the shape below. -/

mutual

inductive Item : Type where
  | nameLeaf (v : String) : Item
  | stringLeaf (v : String) : Item
  | group (rhs : Rhs) : Item
  | opt (inner : Item) : Item
  | repeat0 (id : Nat) (inner : Item) : Item
  | repeat1 (id : Nat) (inner : Item) : Item
  | gather (id : Nat) (separator : Item) (elem : Item) : Item
  | posLookahead (inner : Item) : Item
  | negLookahead (inner : Item) : Item
  | cut : Item
  | forced (inner : Item) : Item

inductive Rhs : Type where
  | mk (id : Nat) (alts : List Alt) : Rhs

inductive Alt : Type where
  | mk (items : List NamedItem) (action : Option String) : Alt

inductive NamedItem : Type where
  | mk (name : Option String) (item : Item) : NamedItem

end

/-- Alternatives of a right-hand side. -/
def Rhs.alts : Rhs → List Alt
  | .mk _ a => a

/-- Arena index of a right-hand side (object identity of the Python node). -/
def Rhs.nodeId : Rhs → Nat
  | .mk i _ => i

/-- Items of an alternative. -/
def Alt.items : Alt → List NamedItem
  | .mk i _ => i

/-- Action of an alternative. -/
def Alt.action : Alt → Option String
  | .mk _ a => a

/-- Item of a named item. -/
def NamedItem.item : NamedItem → Item
  | .mk _ i => i

/-- A rule: name, declared type, right-hand side and precomputed analysis
flags, as consumed by visit_Rule. -/
structure Rule where
  name : String
  ty : Option String
  rhs : Rhs
  nullable : Bool
  leftRecursive : Bool
  leader : Bool

/-- Modelled from the spec: a fully analyzed grammar exposes an ordered rule
list and a string-to-string metadata lookup. -/
structure Grammar where
  rules : List Rule
  metas : List (String × String)

/-- Modelled from the spec: grammar metadata lookup with a default
(Python dict .get). -/
def metasGetD (g : Grammar) (key dflt : String) : String :=
  match g.metas.find? (fun p => p.1 == key) with
  | some p => p.2
  | none => dflt

/-- Modelled from the spec: Rule.is_loop of the external grammar module tests
the synthetic loop-rule naming convention. -/
def Rule.isLoop (r : Rule) : Bool := strLeads r.name "_loop"

/-- Modelled from the spec: Rule.is_gather tests the synthetic gather-rule
naming convention. -/
def Rule.isGather (r : Rule) : Bool := strLeads r.name "_gather"

/-- Modelled from the spec: Rule.flatten of the external grammar module. The
spec does not describe any flattening and no claim depends on it, so it is
modelled as returning the right-hand side unchanged. -/
def Rule.flatten (r : Rule) : Rhs := r.rhs

/-! ## Generator state -/

/-- Cache key kind: which visitor stored the entry. Together with the node id
this models keying the cache by node object identity. -/
inductive CKind : Type where
  | rhs : CKind
  | rep0 : CKind
  | rep1 : CKind
  | gather : CKind
deriving DecidableEq

/-- Tags for the synthetic-rule name shapes produced by the name/output
utility layer. -/
inductive SynTag : Type where
  | loop0 : SynTag
  | loop1 : SynTag
  | gather : SynTag
  | tmp : SynTag
deriving DecidableEq

/-- Modelled from the spec: prefixes of synthetic rule names. -/
def synPrefixOf : SynTag → String
  | .loop0 => "_loop0_"
  | .loop1 => "_loop1_"
  | .gather => "_gather_"
  | .tmp => "_tmp_"

/-- The character of one decimal digit. -/
def digitChar (d : Nat) : Char := Char.ofNat (48 + d)

/-- Decimal rendering of a natural number, with structural fuel (any fuel
above the number suffices) so that it reduces inside the kernel. -/
def natStrAux : Nat → Nat → List Char
  | _, 0 => []
  | n, fuel + 1 =>
    if n < 10 then [digitChar n]
    else natStrAux (n / 10) fuel ++ [digitChar (n % 10)]

/-- Decimal rendering of a natural number (the value of Python str(int)). -/
def natStr (n : Nat) : String := ⟨natStrAux n (n + 1)⟩

/-- Value of a digit-character list read as a decimal numeral. -/
def decodeDigits : List Char → Nat
  | [] => 0
  | c :: cs => (c.toNat - 48) * 10 ^ cs.length + decodeDigits cs

/-- Modelled from the spec: a synthetic rule name is a tag prefix followed by
the decimal value of the allocation counter. -/
def mkSynName (t : SynTag) (k : Nat) : String := synPrefixOf t ++ natStr k

/-- State of one generation run: the call-maker cache, the harvested keyword
sets, the synthetic-name counter, the fresh-node-id counter, the rule
worklist, and the per-alternative local variable names and cleanup-statement
stack of the statement emitter. -/
structure GenSt where
  cache : List ((Nat × CKind) × (Option String × String))
  keywords : List String
  softKeywords : List String
  counter : Nat
  nextId : Nat
  todo : List (String × Rule)
  localVarNames : List String
  cleanupStatements : List String

/-- Association-list lookup for the call-maker cache. -/
def cacheFind : List ((Nat × CKind) × (Option String × String)) → Nat × CKind →
    Option (Option String × String)
  | [], _ => none
  | (k, v) :: rest, key => if k = key then some v else cacheFind rest key

/-- Python dict insert-or-overwrite for the worklist (self.todo[name] = rule),
preserving insertion order. -/
def todoInsert (todo : List (String × Rule)) (name : String) (r : Rule) :
    List (String × Rule) :=
  if todo.any (fun p => p.1 == name) then
    todo.map (fun p => if p.1 == name then (name, r) else p)
  else
    todo ++ [(name, r)]

/-- Names currently on the worklist, in order. -/
def todoNames (st : GenSt) : List String := st.todo.map Prod.fst

/-! ## Spec-modelled name/output utilities (ParserGenerator base class) -/

/-- Modelled from the spec: one step of the local-name collision resolution
(suffix a counter until the name is unused within the alternative). -/
def dedupeAux (orig : String) (names : List String) : Nat → Nat → String
  | ctr, 0 => orig ++ "_" ++ Nat.repr (ctr + 1)
  | ctr, fuel + 1 =>
    let cand := if ctr = 0 then orig else orig ++ "_" ++ Nat.repr ctr
    if names.contains cand then dedupeAux orig names (ctr + 1) fuel else cand

/-- Modelled from the spec: per-alternative local-name deduplication; the
chosen name is recorded in the local-variable list. -/
def dedupe (st : GenSt) (name : String) : String × GenSt :=
  let n := dedupeAux name st.localVarNames 0 (st.localVarNames.length + 1)
  (n, { st with localVarNames := st.localVarNames ++ [n] })

/-- Modelled from the spec: synthesize a fresh loop rule for a repeat node and
enqueue it on the worklist; returns the fresh name. -/
def nameLoop (st : GenSt) (node : Item) (isRepeat1 : Bool) : String × GenSt :=
  let k := st.counter + 1
  let name := mkSynName (if isRepeat1 then SynTag.loop1 else SynTag.loop0) k
  let rule : Rule :=
    ⟨name, none, Rhs.mk st.nextId [Alt.mk [NamedItem.mk none node] none], false, false, false⟩
  (name, { st with counter := k, nextId := st.nextId + 1,
                   todo := todoInsert st.todo name rule })

/-- Modelled from the spec: synthesize the gather rule (head element plus
rest list) together with its companion separator-loop rule, enqueue both, and
return the gather rule name. -/
def nameGather (st : GenSt) (sep elem : Item) : String × GenSt :=
  let kGather := st.counter + 1
  let gname := mkSynName SynTag.gather kGather
  let kLoop := st.counter + 2
  let lname := mkSynName SynTag.loop0 kLoop
  let loopAlt := Alt.mk [NamedItem.mk none sep, NamedItem.mk (some "elem") elem] (some "elem")
  let loopRule : Rule := ⟨lname, none, Rhs.mk st.nextId [loopAlt], false, false, false⟩
  let gatherAlt :=
    Alt.mk [NamedItem.mk (some "elem") elem, NamedItem.mk (some "seq") (Item.nameLeaf lname)] none
  let gatherRule : Rule := ⟨gname, none, Rhs.mk (st.nextId + 1) [gatherAlt], false, false, false⟩
  (gname, { st with counter := kLoop, nextId := st.nextId + 2,
                    todo := todoInsert (todoInsert st.todo lname loopRule) gname gatherRule })

/-- Modelled from the spec: synthesize a fresh rule materializing an anonymous
multi-alternative group; the rule owns the visited right-hand side itself. -/
def nameNode (st : GenSt) (rhs : Rhs) : String × GenSt :=
  let k := st.counter + 1
  let name := mkSynName SynTag.tmp k
  let rule : Rule := ⟨name, none, rhs, false, false, false⟩
  (name, { st with counter := k, todo := todoInsert st.todo name rule })

/-! ## Janet literal escaping (JanetLiteralExpr.__str__ and escape) -/

/-- JanetLiteralExpr string rendering: wrap in double quotes when printable
with no backslash and no double quote, otherwise wrap in one more backtick
than the value contains. (The constructor asserts the value is ASCII.) -/
def janetEscape (s : String) : String :=
  if s.data.all isPrintableAscii && !s.data.contains '\\' && !s.data.contains dquoteC then
    ⟨dquoteC :: (s.data ++ [dquoteC])⟩
  else
    let n := (s.data.filter (fun c => c = backtickC)).length + 1
    ⟨List.replicate n backtickC ++ s.data ++ List.replicate n backtickC⟩

/-! ## Spec-modelled grammar pretty printing

The comment line `# name: rhs` and the forced-match diagnostic interpolate
str(rhs) of the external grammar module; the spec does not pin its exact
format, so a minimal grammar-syntax rendering is used. -/

mutual

def itemToString : Item → String
  | .nameLeaf v => v
  | .stringLeaf v => v
  | .group rhs => "(" ++ rhsToString rhs ++ ")"
  | .opt i => "[" ++ itemToString i ++ "]"
  | .repeat0 _ i => itemToString i ++ "*"
  | .repeat1 _ i => itemToString i ++ "+"
  | .gather _ s e => itemToString s ++ "." ++ itemToString e ++ "+"
  | .posLookahead i => "&" ++ itemToString i
  | .negLookahead i => "!" ++ itemToString i
  | .cut => "~"
  | .forced i => "&&" ++ itemToString i

def namedItemToString : NamedItem → String
  | .mk (some n) i => if n.isEmpty then itemToString i else n ++ "=" ++ itemToString i
  | .mk none i => itemToString i

def itemsToString : List NamedItem → String
  | [] => ""
  | [ni] => namedItemToString ni
  | ni :: rest => namedItemToString ni ++ " " ++ itemsToString rest

def altToString : Alt → String
  | .mk items _ => itemsToString items

def altsToString : List Alt → String
  | [] => ""
  | [a] => altToString a
  | a :: rest => altToString a ++ " | " ++ altsToString rest

def rhsToString : Rhs → String
  | .mk _ alts => altsToString alts

end

/-! ## InvalidNodeVisitor

Faithful to the visitor methods of the source class; the generic dynamic
dispatch of the external GrammarVisitor base class is modelled, per the spec
design note, as an exhaustive match over the closed item variants. -/

mutual

def invalidItem : Item → Bool
  | .nameLeaf v => strLeads v "invalid"
  | .stringLeaf _ => false
  | .group rhs => invalidRhs rhs
  | .opt i => invalidItem i
  | .repeat0 _ i => invalidItem i
  | .repeat1 _ i => invalidItem i
  | .gather _ _ e => invalidItem e
  | .posLookahead i => invalidItem i
  | .negLookahead i => invalidItem i
  | .cut => false
  | .forced i => invalidItem i

def invalidNamed : NamedItem → Bool
  | .mk _ i => invalidItem i

def invalidItems : List NamedItem → Bool
  | [] => false
  | ni :: rest => invalidNamed ni || invalidItems rest

def invalidAlt : Alt → Bool
  | .mk items _ => invalidItems items

def invalidAlts : List Alt → Bool
  | [] => false
  | a :: rest => invalidAlt a || invalidAlts rest

def invalidRhs : Rhs → Bool
  | .mk _ alts => invalidAlts alts

end

/-! ## alts_uses_locations -/

mutual

def altsUsesLocations : List Alt → Bool
  | [] => false
  | a :: rest => altUL a || altsUsesLocations rest

def altUL : Alt → Bool
  | .mk items act =>
    (match act with
     | some a => strHas a "LOCATIONS"
     | none => false) || itemsUL items

def itemsUL : List NamedItem → Bool
  | [] => false
  | .mk _ i :: rest => itemUL i || itemsUL rest

def itemUL : Item → Bool
  | .group rhs =>
    match rhs with
    | .mk _ alts => altsUsesLocations alts
  | _ => false

end

/-! ## Expression visitor (JanetCallMakerVisitor) -/

/-- visit_NameLeaf: map a terminal name to its bound name and call text. -/
def cmNameLeaf (v : String) : Option String × String :=
  if v = "SOFT_KEYWORD" then (some "soft_keyword", "(self soft_keyword)")
  else if v = "NAME" ∨ v = "NUMBER" ∨ v = "STRING" ∨ v = "OP" ∨ v = "TYPE_COMMENT" then
    (some (strLower v), "(self " ++ strLower v ++ ")")
  else if v = "NEWLINE" ∨ v = "DEDENT" ∨ v = "INDENT" ∨ v = "ENDMARKER" ∨
          v = "ASYNC" ∨ v = "AWAIT" then
    -- Avoid using names that can be Python keywords.
    (some ("_" ++ strLower v), "(self expect " ++ janetEscape v ++ ")")
  else (some v, "(self " ++ v ++ ")")

/-- Modelled from the Python stdlib: ast.literal_eval restricted to simple
quoted string literals without escape sequences, the only form grammar string
leaves take here: strip one matching pair of quotes. -/
def literalEval (s : String) : String :=
  match s.data with
  | [] => s
  | c :: rest =>
    if (c = squoteC ∨ c = dquoteC) ∧ rest ≠ [] ∧ rest.getLast? = some c then
      ⟨rest.dropLast⟩
    else s

/-- The identifier test of visit_StringLeaf: the raw value matches the regex
of one ASCII letter or underscore followed by ASCII word characters. -/
def litIsIdentifier (s : String) : Bool :=
  match s.data with
  | [] => false
  | c :: cs => (c.isAlpha || c = '_') && cs.all (fun d => d.isAlphanum || d = '_')

/-- lookahead_call_helper: split the inner call at its first opening
parenthesis and strip the trailing closing parenthesis (the source asserts
the call ends in one). A call with no opening parenthesis raises in the
source; it is modelled as an empty remainder. -/
def lookaheadSplit (call : String) : String × String :=
  (⟨call.data.takeWhile (fun c => c ≠ '(')⟩,
   ⟨((call.data.dropWhile (fun c => c ≠ '(')).drop 1).dropLast⟩)

/-- visit_NamedItem of the call maker: a nonempty explicit binding name
overrides the inner name. -/
def nameOverride (explicit : Option String) (inner : Option String) : Option String :=
  match explicit with
  | some s => if s.isEmpty then inner else some s
  | none => inner

mutual

/-- JanetCallMakerVisitor.visit on an item: returns the (bound name, call
text) pair and the updated generator state. -/
def cmVisit (st : GenSt) : Item → (Option String × String) × GenSt
  | .nameLeaf v => (cmNameLeaf v, st)
  | .stringLeaf v =>
    let val := literalEval v
    let st1 :=
      if litIsIdentifier val then
        -- this is a keyword: exact if the raw literal is single-quoted
        if strTrails v ⟨[squoteC]⟩ then { st with keywords := setInsert val st.keywords }
        else { st with softKeywords := setInsert val st.softKeywords }
      else st
    ((some "literal", "(expect " ++ janetEscape v ++ ")"), st1)
  | .group rhs => cmVisitRhs st rhs
  | .opt inner =>
    let r := cmVisit st inner
    -- Note trailing comma (the call may already have one at the end)
    if strTrails r.1.2 "," then ((some "opt", r.1.2), r.2)
    else ((some "opt", r.1.2 ++ ","), r.2)
  | .repeat0 id inner =>
    match cacheFind st.cache (id, CKind.rep0) with
    | some v => (v, st)
    | none =>
      let ns := nameLoop st inner false
      let v := (some ns.1, "(self " ++ ns.1 ++ "),")  -- Also a trailing comma!
      (v, { ns.2 with cache := ((id, CKind.rep0), v) :: ns.2.cache })
  | .repeat1 id inner =>
    match cacheFind st.cache (id, CKind.rep1) with
    | some v => (v, st)
    | none =>
      let ns := nameLoop st inner true
      let v := (some ns.1, "(self " ++ ns.1 ++ ")")  -- But no trailing comma here!
      (v, { ns.2 with cache := ((id, CKind.rep1), v) :: ns.2.cache })
  | .gather id sep elem =>
    match cacheFind st.cache (id, CKind.gather) with
    | some v => (v, st)
    | none =>
      let ns := nameGather st sep elem
      let v := (some ns.1, "(self " ++ ns.1 ++ ")")  -- No trailing comma here either!
      (v, { ns.2 with cache := ((id, CKind.gather), v) :: ns.2.cache })
  | .posLookahead inner =>
    let r := cmVisit st inner
    let ht := lookaheadSplit r.1.2
    ((none, "(self positive_lookahead " ++ ht.1 ++ " " ++ ht.2 ++ ")"), r.2)
  | .negLookahead inner =>
    let r := cmVisit st inner
    let ht := lookaheadSplit r.1.2
    ((none, "(self negative_lookahead " ++ ht.1 ++ " " ++ ht.2 ++ ")"), r.2)
  | .cut => ((some "cut", "true"), st)
  | .forced inner =>
    match inner with
    | .group rhs =>
      let r := cmVisitRhs st rhs
      ((some "forced",
        "(self expect_forced " ++ janetEscape r.1.2 ++ " " ++ ⟨List.replicate 4 backtickC⟩
          ++ "(" ++ rhsToString rhs ++ ")" ++ ⟨List.replicate 4 backtickC⟩ ++ ")"), r.2)
    | .stringLeaf v =>
      ((some "forced",
        "(self expect_forced (self expect " ++ janetEscape v ++ ") " ++ janetEscape v ++ ")"), st)
    | .nameLeaf v =>
      ((some "forced",
        "(self expect_forced (self expect " ++ janetEscape v ++ ") " ++ janetEscape v ++ ")"), st)
    | _ =>
      -- the source reads node.node.value here and would raise AttributeError
      -- on a non-leaf; modelled with an empty diagnostic value
      ((some "forced",
        "(self expect_forced (self expect " ++ janetEscape "" ++ ") " ++ janetEscape "" ++ ")"), st)

/-- visit_Rhs of the call maker: cached by node identity; a single-alternative
single-item right-hand side inlines the inner item (through visit_NamedItem),
otherwise a synthetic rule is named and invoked. -/
def cmVisitRhs (st : GenSt) : Rhs → (Option String × String) × GenSt
  | .mk id alts =>
    match cacheFind st.cache (id, CKind.rhs) with
    | some v => (v, st)
    | none =>
      let rv := cmRhsBody st id alts
      (rv.1, { rv.2 with cache := ((id, CKind.rhs), rv.1) :: rv.2.cache })

/-- The value stored for an uncached right-hand side: a single-alternative
single-item node inlines the inner item through the named-item visit,
anything else names a synthetic rule. -/
def cmRhsBody (st : GenSt) (id : Nat) : List Alt → (Option String × String) × GenSt
  | [Alt.mk [NamedItem.mk oname inner] _act] =>
    let r := cmVisit st inner
    ((nameOverride oname r.1.1, r.1.2), r.2)
  | other =>
    let ns := nameNode st (Rhs.mk id other)
    ((some ns.1, "(self " ++ ns.1 ++ ")"), ns.2)

end

end Pegen

namespace Pegen

/-- The compound item kinds whose translation is cached by node identity. -/
def isCompound : Item → Bool
  | .group _ => true
  | .repeat0 _ _ => true
  | .repeat1 _ _ => true
  | .gather _ _ _ => true
  | _ => false

/-- Shape of every call text the expression visitor produces: it begins with
an opening parenthesis or with the letter t (the cut literal true). -/
def callHeadB (c : String) : Bool :=
  match c.data with
  | [] => false
  | d :: _ => d = '(' || d = 't'

/-- Well-formedness of one call text: it never ends in a doubled
list-separator, and it has the produced head shape. -/
def callInvB (c : String) : Bool := !strTrails c ",," && callHeadB c

/-- Well-formedness of a cache entry, by the kind of node that stored it:
one-or-more and gather calls never end in the separator, zero-or-more calls
always do (and not doubly), right-hand-side entries are plain well-formed
calls. -/
def entryOkB : CKind → String → Bool
  | .rep0, c => strTrails c "," && callInvB c
  | .rep1, c => !strTrails c "," && callInvB c
  | .gather, c => !strTrails c "," && callInvB c
  | .rhs, c => callInvB c

/-- Every cache entry is well-formed for the kind of node that stored it. -/
def cacheInvB (st : GenSt) : Bool :=
  st.cache.all (fun e => entryOkB e.1.2 e.2.2)

/-- Does a character-list pattern provably fail to lead the list, with the
disagreement inside the compared region? -/
def mismatchB : List Char → List Char → Bool
  | [], _ => false
  | _, [] => false
  | p :: ps, a :: as => if p = a then mismatchB ps as else true

/-- Is this emitted line a return statement? (The statement-level emitter
writes returns as lines starting with the return form.) -/
def isRetB (s : String) : Bool := strLeads s "(return "

/-- Scan emitted line contents, requiring every return statement to be
immediately preceded by the given restore statement. -/
def retGuardedB (guard : String) : String → List String → Bool
  | _, [] => true
  | prev, l :: rest => (!isRetB l || (prev == guard)) && retGuardedB guard l rest

/-- The claim read literally: every line containing a return form anywhere
(including the cut-triggered early return) is immediately preceded by the
restore statement. -/
def returnsRestoreB (guard : String) : String → List String → Bool
  | _, [] => true
  | prev, l :: rest => (!strHas l "(return" || (prev == guard)) && returnsRestoreB guard l rest

/-- Does the name have the shape of a synthetic rule name (one of the four
tag prefixes)? -/
def synNameB (s : String) : Bool :=
  strLeads s "_loop0_" || strLeads s "_loop1_" || strLeads s "_gather_" ||
    strLeads s "_tmp_"

/-- A name admissible in a state whose allocation counter is c: either not
synthetic-shaped, or allocated at some earlier counter value. -/
def SynOk (c : Nat) (s : String) : Prop :=
  synNameB s = false ∨ ∃ t k, k ≤ c ∧ s = mkSynName t k

/-- The names newly enqueued between counter values c and c2: pairwise
distinct synthetic names allocated in that interval. -/
def SynNew (c c2 : Nat) (new : List String) : Prop :=
  new.Nodup ∧ ∀ n ∈ new, ∃ t k, c < k ∧ k ≤ c2 ∧ n = mkSynName t k

/-- How one call-maker visit extends the generator state: the counter grows
and the worklist names are extended by freshly allocated synthetic names. -/
def VisitExt (st st2 : GenSt) : Prop :=
  st.counter ≤ st2.counter ∧
  ∃ new, todoNames st2 = todoNames st ++ new ∧ SynNew st.counter st2.counter new

/-! ## Statement visitor (JanetParserGenerator) -/

/-- One emitted line: indent level (four spaces each in the final text) and
content. A bare self.print() is modelled as level 0 with empty content. -/
abbrev OutLine := Nat × String

/-- Nest a block one indentation level deeper (the printer context manager
self.indent()). -/
def shift1 (ls : List OutLine) : List OutLine := ls.map (fun p => (p.1 + 1, p.2))

/-- Default location_formatting of the generator constructor. -/
def locationFormatting : String :=
  "\x7b:lineno start_lineno :cool_offset start_col_offset :end_lineno end_lineno :end_col_offset end_col_offset\x7d"

/-- Default unreachable_formatting of the generator constructor. -/
def unreachableFormatting : String := "None  # pragma: no cover"

/-- add_return: print every pending cleanup statement, then the return. -/
def addReturn (st : GenSt) (retVal : String) : List OutLine :=
  st.cleanupStatements.map (fun s => ((0 : Nat), s)) ++ [(0, "(return " ++ retVal ++ ")")]

/-- visit_NamedItem of the statement visitor: compute the bound name (cleared
when unreachable, overridden by an explicit binding, cleared when a used-name
set is supplied and does not contain it), then emit either a bare
parenthesized call or a deduplicated local binding. -/
def stmtNamedItem (st : GenSt) (ni : NamedItem) (used : Option (List String))
    (unreachable : Bool) : List OutLine × GenSt :=
  match ni with
  | .mk oname item =>
    let r := cmVisit st item
    let call := r.1.2
    let st1 := r.2
    let n1 : Option String :=
      if unreachable then none
      else match oname with
        | some s => if s.isEmpty then r.1.1 else some s
        | none => r.1.1
    let n2 : Option String :=
      match used with
      | some u => match n1 with
        | some s => if u.contains s then some s else none
        | none => none
      | none => n1
    match n2 with
    | none =>
      -- Parentheses are needed because the trailing comma may appear
      ([(0, "(" ++ call ++ ")")], st1)
    | some nm =>
      if nm.isEmpty then ([(0, "(" ++ call ++ ")")], st1)
      else if nm = "cut" then ([(0, "(var " ++ nm ++ " " ++ call ++ ")")], st1)
      else
        let ds := dedupe st1 nm
        ([(0, "(var " ++ ds.1 ++ " " ++ call ++ ")")], ds.2)

/-- The conjunction body of one alternative: each item in order, wrapped in a
non-nil check when emitting a gather rule. -/
def stmtItems (st : GenSt) (items : List NamedItem) (used : Option (List String))
    (unreachable : Bool) (isGather : Bool) : List OutLine × GenSt :=
  match items with
  | [] => ([], st)
  | ni :: rest =>
    let r := stmtNamedItem st ni used unreachable
    let rr := stmtItems r.2 rest used unreachable isGather
    (((if isGather then [((0 : Nat), "(not (nil? ")] else []) ++ r.1 ++
      (if isGather then [((0 : Nat), "))")] else [])) ++ rr.1, rr.2)

/-- print_action: default the action from the bound local names (gather rules
combine their two names as head plus rest), emit end-location capture when
requested, and either push onto the loop accumulator or return. -/
def printAction (st : GenSt) (action : Option String) (locations unreachable isGather
    isLoop hasInvalid : Bool) : List OutLine × GenSt :=
  let act : String :=
    match action with
    | some a => a
    | none =>
      if isGather then
        -- the source asserts exactly two local variable names here
        "[" ++ (st.localVarNames.getD 0 "") ++ "] + " ++ (st.localVarNames.getD 1 "")
      else if hasInvalid then
        -- the source asserts this branch is never reached without an action
        -- (visit_Alt always substitutes one); modelled as the Python rendering
        "None"
      else if st.localVarNames.length = 1 then
        st.localVarNames.getD 0 ""
      else
        "[" ++ String.intercalate ", " st.localVarNames ++ "]"
  let locLines : List OutLine :=
    if locations then
      [(0, "(var tok (:get_last_non_whitespace_token (self :_tokenizer)))"),
       (0, "(var [end_lineno end_col_offset] (tok :end))")]
    else []
  if isLoop then
    (locLines ++ [(0, "(array/push children " ++ act ++ ")"), (0, "(set mark self._mark())")], st)
  else
    (locLines ++ addReturn st act, st)

/-- Is the wrapped item a cut marker? -/
def isCutNamed (ni : NamedItem) : Bool :=
  match ni with
  | .mk _ .cut => true
  | _ => false

/-- visit_Alt: per-alternative cut flag initialization, the backtracking
conjunction (a while loop for loop-shaped rules), the action emission, the
reset to the rule mark, and the cut-triggered early failure return. The
used-name extraction of the source is under an if False and therefore the
used set is always none here. -/
def stmtAlt (st : GenSt) (alt : Alt) (isLoop isGather : Bool) : List OutLine × GenSt :=
  match alt with
  | .mk items action0 =>
    let hasCut := items.any isCutNamed
    let hasInvalid := invalidAlt (Alt.mk items action0)
    let action1 : Option String :=
      match action0 with
      | some a => if a.isEmpty then (if ¬isGather ∧ hasInvalid then some "UNREACHABLE" else none)
                  else some a
      | none => if ¬isGather ∧ hasInvalid then some "UNREACHABLE" else none
    let locations := match action1 with
      | some a => strHas a "LOCATIONS"
      | none => false
    let action2 : Option String := match action1 with
      | some a => some (if strHas a "LOCATIONS" then strReplace a "LOCATIONS" locationFormatting else a)
      | none => none
    let unreachable := match action2 with
      | some a => strHas a "UNREACHABLE"
      | none => false
    let action3 : Option String := match action2 with
      | some a => some (if strHas a "UNREACHABLE" then strReplace a "UNREACHABLE" unreachableFormatting else a)
      | none => none
    -- if False: extract the names actually used in the action (dead code)
    let used : Option (List String) := none
    -- local_variable_context: save and clear the per-alternative names
    let savedNames := st.localVarNames
    let st0 := { st with localVarNames := [] }
    let rItems := stmtItems st0 items used unreachable isGather
    let rAction := printAction rItems.2 action3 locations unreachable isGather isLoop hasInvalid
    let stOut := { rAction.2 with localVarNames := savedNames }
    ((if hasCut then [((0 : Nat), "(set cut False)")] else []) ++
      [(0, if isLoop then "(while (and " else "(when (and ")] ++
      shift1 ((if hasInvalid then [((0 : Nat), "(self :call_invalid_rules)")] else []) ++ rItems.1) ++
      [(0, ")")] ++
      shift1 rAction.1 ++
      [(0, "(:_reset self mark)")] ++
      (if hasCut then [((0 : Nat), "(when cut (return nil))")] else []),
     stOut)

/-- visit_Rhs of the statement visitor: emit every alternative in order. -/
def stmtAlts (st : GenSt) (alts : List Alt) (isLoop isGather : Bool) : List OutLine × GenSt :=
  match alts with
  | [] => ([], st)
  | a :: rest =>
    let r := stmtAlt st a isLoop isGather
    let rr := stmtAlts r.2 rest isLoop isGather
    (r.1 ++ rr.1, rr.2)

def stmtRhs (st : GenSt) (rhs : Rhs) (isLoop isGather : Bool) : List OutLine × GenSt :=
  stmtAlts st rhs.alts isLoop isGather

/-- Decoration selection of visit_Rule: the leader of a left-recursive cycle
gets the left-recursion memoization, other cycle members only a logger, every
other rule the standard memoization. -/
def ruleDecorators (r : Rule) : List String :=
  if r.leftRecursive then
    if r.leader then ["memoize_left_rec"]
    else
      -- Non-leader rules in a cycle are not memoized, but they must still be logged.
      ["@logger"]
  else ["@memoize"]

/-- The restore statement pushed for rules suppressing invalid-rule dispatch. -/
def invalidCleanupStmt : String := "(set self :call_invalid_rules _prev_call_invalid)"

/-- The function-opening line of visit_Rule: the definition form (always
decorated, since the decorator list is never empty), the decorator array, the
rule name and the self parameter. -/
def ruleHeaderLine (r : Rule) : String :=
  "(" ++ (if (ruleDecorators r).isEmpty then "defn" else "decorated-defn") ++ " " ++
    ("[" ++ String.intercalate "," (ruleDecorators r) ++ "]") ++ " " ++ r.name ++ " [self]"

/-- visit_Rule: emit the decorated function for one rule: header, comment,
optional nullable note, the invalid-dispatch save/disable prologue for rules
named ...without_invalid (with the restore pushed on the cleanup stack and
popped after the rule), the mark capture, optional start-location capture,
the loop accumulator, the alternatives, and the final failure return. -/
def visitRule (st : GenSt) (r : Rule) : List OutLine × GenSt :=
  let isLoop := r.isLoop
  let isGather := r.isGather
  let rhs := r.flatten
  let header : OutLine := (0, ruleHeaderLine r)
  let wi := strTrails r.name "without_invalid"
  let prologue : List OutLine :=
    if wi then
      [(0, "(def _prev_call_invalid (self :call_invalid_rules))"),
       (0, "(set self :call_invalid_rules False)")]
    else []
  let st1 := if wi then { st with cleanupStatements := st.cleanupStatements ++ [invalidCleanupStmt] }
             else st
  let locLines : List OutLine :=
    if altsUsesLocations r.rhs.alts then
      [(0, "(var tok (:peek (self :_tokenizer)))"),
       (0, "(var [start_lineno start_col_offset] tok.start)")]
    else []
  let rBody := stmtRhs st1 rhs isLoop isGather
  let retLines := addReturn rBody.2 (if isLoop then "children" else "None")
  let st2 := rBody.2
  let st3 := if wi then { st2 with cleanupStatements := st2.cleanupStatements.dropLast } else st2
  (header ::
    shift1 ([(0, "# " ++ r.name ++ ": " ++ rhsToString rhs)] ++
      (if r.nullable then [((0 : Nat), "# nullable=True")] else []) ++
      prologue ++
      [(0, "(var mark (:_mark self))")] ++
      locLines ++
      (if isLoop then [((0 : Nat), "(def children @[])")] else []) ++
      rBody.1 ++ retLines) ++
    [(0, ")")],
   st3)

/-! ## generate -/

/-- Module header template (MODULE_PREFIX). -/
def modulePrefixT : String :=
  "#!/usr/bin/env janet\n# @generated by pegen from \x7bfilename\x7d\n\n(use pegen/parser/helpers)\n"

/-- Module trailer template (MODULE_SUFFIX). -/
def moduleSuffixT : String :=
  "\n\nif __name__ == \x27__main__\x27:\n    (import pegen/parser)\n    (pegen/parser/simple_parser_main \x7bclass_name\x7d)\n"

/-- Python repr of an identifier-shaped string (the only strings the keyword
tables hold). -/
def pyReprStr (s : String) : String := ⟨squoteC :: (s.data ++ [squoteC])⟩

/-- Python str of a tuple of strings. -/
def pyTupleRepr : List String → String
  | [] => "()"
  | [x] => "(" ++ pyReprStr x ++ ",)"
  | xs => "(" ++ String.intercalate ", " (xs.map pyReprStr) ++ ")"

/-- sorted() of the harvested exact-keyword set. -/
def sortedKeywords (st : GenSt) : List String := List.insertionSort strLeR st.keywords

/-- sorted() of the harvested soft-keyword set. -/
def sortedSoftKeywords (st : GenSt) : List String := List.insertionSort strLeR st.softKeywords

/-- The two trailing keyword table lines (emitted one level deep). -/
def keywordTableLines (st : GenSt) : List OutLine :=
  [(1, "(def KEYWORDS " ++ pyTupleRepr (sortedKeywords st) ++ ")"),
   (1, "(def SOFT_KEYWORDS " ++ pyTupleRepr (sortedSoftKeywords st) ++ ")")]

/-- Remove a processed rule from the worklist (del self.todo[rulename]). -/
def todoRemove (st : GenSt) (name : String) : GenSt :=
  { st with todo := st.todo.filter (fun p => ¬(p.1 == name)) }

/-- One pass over a snapshot of the worklist: delete each rule from the
worklist, print a blank separator and the rule at one indent level. -/
def processSnapshot (st : GenSt) : List (String × Rule) → List OutLine × GenSt
  | [] => ([], st)
  | (name, rule) :: rest =>
    let st1 := todoRemove st name
    let r := visitRule st1 rule
    let rr := processSnapshot r.2 rest
    (((0, "") :: shift1 r.1) ++ rr.1, rr.2)

/-- The while self.todo drain loop, with explicit fuel bounding the number of
iterations (the source relies on idempotent synthetic-rule creation for
termination). Returns the processed (name, rule) trace alongside the emitted
lines and final state; the source loop does not return the trace, which is
recorded here only so theorems can speak about the processing order. -/
def drain : Nat → GenSt → Option (List (String × Rule) × List OutLine × GenSt)
  | fuel, st =>
    if st.todo.isEmpty then some ([], [], st)
    else
      match fuel with
      | 0 => none
      | f + 1 =>
        let snap := st.todo
        let r := processSnapshot st snap
        match drain f r.2 with
        | none => none
        | some (tr, ls, st2) => some (snap ++ tr, r.1 ++ ls, st2)

/-! Largest arena index occurring in a grammar subtree, used to seed the
fresh-node-id counter above every authored node id. -/

mutual

def itemMaxId : Item → Nat
  | .nameLeaf _ => 0
  | .stringLeaf _ => 0
  | .group rhs => rhsMaxId rhs
  | .opt i => itemMaxId i
  | .repeat0 id i => max id (itemMaxId i)
  | .repeat1 id i => max id (itemMaxId i)
  | .gather id s e => max id (max (itemMaxId s) (itemMaxId e))
  | .posLookahead i => itemMaxId i
  | .negLookahead i => itemMaxId i
  | .cut => 0
  | .forced i => itemMaxId i

def namedMaxId : NamedItem → Nat
  | .mk _ i => itemMaxId i

def itemsMaxId : List NamedItem → Nat
  | [] => 0
  | ni :: rest => max (namedMaxId ni) (itemsMaxId rest)

def altMaxId : Alt → Nat
  | .mk items _ => itemsMaxId items

def altsMaxId : List Alt → Nat
  | [] => 0
  | a :: rest => max (altMaxId a) (altsMaxId rest)

def rhsMaxId : Rhs → Nat
  | .mk id alts => max id (altsMaxId alts)

end

/-- Fresh generator state for one run (the worklist holds the authored rules
in declaration order; fresh node ids start above every grammar node id). -/
def grammarMaxId (g : Grammar) : Nat :=
  (g.rules.map (fun r => rhsMaxId r.rhs)).foldr max 0

def initSt (g : Grammar) : GenSt :=
  { cache := [], keywords := [], softKeywords := [], counter := 0,
    nextId := grammarMaxId g + 1,
    todo := g.rules.map (fun r => (r.name, r)),
    localVarNames := [], cleanupStatements := [] }

/-- JanetParserGenerator.generate: header, optional subheader, the parser
opening, the drained rules, the keyword tables, and the trailer. Returns the
processed trace, all emitted lines in order, and the final state; none when
the fuel does not suffice to drain the worklist. -/
def runGenerate (g : Grammar) (filename : String) (fuel : Nat) :
    Option (List (String × Rule) × List OutLine × GenSt) :=
  let st0 := initSt g
  let header := metasGetD g "header" modulePrefixT
  let hLines : List OutLine := [(0, strReplace (rstripNl header) "\x7bfilename\x7d" filename)]
  let subheader := metasGetD g "subheader" ""
  let sLines : List OutLine := if subheader.isEmpty then [] else [(0, subheader)]
  let clsName := metasGetD g "class" "GeneratedParser"
  let pre := hLines ++ sLines ++
    [(0, "# Keywords and soft keywords are listed at the end of the parser definition."),
     (0, "(defparser " ++ clsName)]
  match drain fuel st0 with
  | none => none
  | some (tr, dLines, st1) =>
    let trailer := metasGetD g "trailer" (strReplace moduleSuffixT "\x7bclass_name\x7d" clsName)
    some (tr, pre ++ dLines ++ ((0, "") :: keywordTableLines st1) ++ [(0, rstripNl trailer)], st1)

/-- Render the emitted lines to the file text (four spaces per level, one
newline per print call). -/
def renderLines (ls : List OutLine) : String :=
  (ls.map (fun p => ⟨(List.replicate (4 * p.1) ' ') ++ p.2.data ++ ['\n']⟩ : OutLine → String)).foldr
    (· ++ ·) ""

/-! ## Builder (build.py) -/

structure BuilderConfig where
  verboseTokenizer : Bool := false
  verboseParser : Bool := false
  skipActions : Bool := false

inductive BackendKind : Type where
  | python : BackendKind
  | janet : BackendKind
deriving DecidableEq

/-- Builder.BUILDERS_BY_GENERATOR_NAME. -/
def buildersByGeneratorName : List (String × BackendKind) :=
  [("python", BackendKind.python), ("janet", BackendKind.janet)]

/-- The unsupported-configuration message raised by both _create_generator
implementations. -/
def skipActionsError : String := "TODO: Support \x60skip_actions\x60 option"

/-- PythonBuilder._create_generator and JanetBuilder._create_generator: both
reject the skip_actions option before constructing a generator. -/
def createGenerator (b : BackendKind) (cfg : BuilderConfig) : Except String BackendKind :=
  match b with
  | .python =>
    if cfg.skipActions then Except.error skipActionsError else Except.ok BackendKind.python
  | .janet =>
    if cfg.skipActions then Except.error skipActionsError else Except.ok BackendKind.janet

/-- Run the chosen generator. Modelled from the spec for the python backend
(PythonParserGenerator is external to src/ and no claim depends on its
output): it yields an unspecified empty module. Fuel exhaustion (not a source
behavior) also yields empty output. -/
def backendGenerate (b : BackendKind) (g : Grammar) (filename : String) (fuel : Nat) :
    List OutLine :=
  match b with
  | .janet =>
    match runGenerate g filename fuel with
    | some r => r.2.1
    | none => []
  | .python => []

/-- Builder.build_generator: open the output file for writing (truncating it
to empty), construct the generator — failing before anything is written when
construction is rejected — then generate into the file. Returns the final
file contents alongside the outcome. -/
def buildGenerator (b : BackendKind) (cfg : BuilderConfig) (g : Grammar)
    (filename : String) (fuel : Nat) : List OutLine × Except String Unit :=
  match createGenerator b cfg with
  | .error e => ([], Except.error e)
  | .ok gen => (backendGenerate gen g filename fuel, Except.ok ())

/-! ## Runtime semantics of the emitted alternative control flow

The code emitted by visit_Alt for an ordinary (non-loop, non-gather) rule has,
per alternative, the shape

  (set cut False)                   when the alternative contains a cut
  (when (and item-1 ... item-n)
    (return action))
  (:_reset self mark)
  (when cut (return nil))           when the alternative contains a cut

where the cut item itself compiles to (var cut true): it sets the flag and
succeeds. The functions below are the direct reading of that control flow:
items run left to right against an evaluation oracle; a failed item aborts the
conjunction; a successful conjunction returns; a failed alternative resets to
the mark and either fails the whole rule (flag set) or falls through to the
next alternative (flag clear). -/

/-- Run the conjunction of one alternative from a position: returns the final
position on success (none on failure) together with the cut flag. The cut
item sets the flag and succeeds without consuming input; every other item is
evaluated by the oracle. -/
def runItems (eval : Item → Nat → Option Nat) : List NamedItem → Nat → Bool →
    Option Nat × Bool
  | [], pos, cutFlag => (some pos, cutFlag)
  | ni :: rest, pos, cutFlag =>
    if isCutNamed ni then runItems eval rest pos true
    else
      match eval ni.item pos with
      | some p2 => runItems eval rest p2 cutFlag
      | none => (none, cutFlag)

/-- Run the ordered alternatives of a rule from the rule mark. -/
def runAlts (eval : Item → Nat → Option Nat) : List Alt → Nat → Option Nat
  | [], _ => none
  | .mk items _ :: rest, mark =>
    match runItems eval items mark false with
    | (some p, _) => some p
    | (none, cutFlag) => if cutFlag then none else runAlts eval rest mark

end Pegen

namespace Pegen

/-! ## Concrete example inputs used by witnesses and counterexamples -/

/-- The rule of the grammar start: NAME ASCII-plus NUMBER (no action). -/
def exRule4 : Rule :=
  ⟨"start", none,
   Rhs.mk 1 [Alt.mk [NamedItem.mk none (Item.nameLeaf "NAME"),
                     NamedItem.mk none (Item.stringLeaf "\x27+\x27"),
                     NamedItem.mk none (Item.nameLeaf "NUMBER")] none],
   false, false, false⟩

def exG4 : Grammar := ⟨[exRule4], []⟩

/-- A grammar whose start rule uses the same identifier literal once
single-quoted (exact keyword) and once double-quoted (soft keyword). -/
def exG5 : Grammar :=
  ⟨[⟨"start", none,
     Rhs.mk 1 [Alt.mk [NamedItem.mk none (Item.stringLeaf "\x27if\x27")] none,
               Alt.mk [NamedItem.mk none (Item.stringLeaf "\"if\"")] none],
     false, false, false⟩], []⟩

/-- A left-recursive non-leader rule. -/
def exRuleLR : Rule := ⟨"expr_tail", none, Rhs.mk 1 [], false, true, false⟩

/-- An empty grammar (gives a pristine initial state). -/
def exG6 : Grammar := ⟨[], []⟩

/-- A zero-or-more repeat node. -/
def exRepeat0 : Item := Item.repeat0 2 (Item.nameLeaf "thing")

/-- A rule whose name ends in without_invalid and whose single alternative
contains a cut. -/
def exRuleWI : Rule :=
  ⟨"x_without_invalid", none,
   Rhs.mk 3 [Alt.mk [NamedItem.mk none Item.cut, NamedItem.mk none (Item.nameLeaf "a")] none],
   false, false, false⟩

/-- An alternative containing a leading cut. -/
def exCutAlt : Alt :=
  Alt.mk [NamedItem.mk none Item.cut, NamedItem.mk none (Item.nameLeaf "a"),
          NamedItem.mk none (Item.nameLeaf "b")] none

/-- A second alternative (a sibling that must not be attempted after a cut). -/
def exAltB : Alt := Alt.mk [NamedItem.mk none (Item.nameLeaf "c")] none

/-- An evaluation oracle under which a succeeds and everything else fails. -/
def exEval : Item → Nat → Option Nat := fun i pos =>
  match i with
  | .nameLeaf v => if v = "a" then some (pos + 1) else none
  | _ => none

end Pegen

namespace Pegen

/-! ## Order instances for the sorting relation -/

instance : IsTotal String strLeR where
  total := by
    intro a b
    show lexLe a.data b.data = true ∨ lexLe b.data a.data = true
    generalize a.data = x
    generalize b.data = y
    induction x generalizing y with
    | nil => left; rfl
    | cons c cs ih =>
      cases y with
      | nil => right; rfl
      | cons d ds =>
        by_cases h1 : c.toNat < d.toNat
        · left; simp [lexLe, h1]
        · by_cases h2 : d.toNat < c.toNat
          · right; simp [lexLe, h1, h2]
          · rcases ih ds with h | h
            · left; simp [lexLe, h1, h2, h]
            · right; simp [lexLe, h1, h2, h]

instance : IsTrans String strLeR where
  trans := by
    intro a b c
    show lexLe a.data b.data = true → lexLe b.data c.data = true → lexLe a.data c.data = true
    generalize a.data = x
    generalize b.data = y
    generalize c.data = z
    induction x generalizing y z with
    | nil => intro _ _; rfl
    | cons p ps ih =>
      cases y with
      | nil => intro h; exact absurd h (by simp [lexLe])
      | cons q qs =>
        cases z with
        | nil => intro _ h; exact absurd h (by simp [lexLe])
        | cons r rs =>
          intro h1 h2
          simp only [lexLe] at h1 h2 ⊢
          split_ifs at h1 h2 ⊢ <;>
            first
            | rfl
            | omega
            | exact ih qs rs h1 h2
            | exact absurd h1 (by simp)
            | exact absurd h2 (by simp)

/-! ## Theorems -/

theorem cons_mid_shape (x1 x2 c d : OutLine) (x3 x4 x5 : List OutLine) :
    ∃ mid : List OutLine, [x1] ++ [x2] ++ x3 ++ x4 ++ x5 ++ [c] ++ [d] =
      x1 :: x2 :: (mid ++ [c, d]) :=
  ⟨x3 ++ x4 ++ x5, by simp⟩

theorem cacheFind_head (k : Nat × CKind) (v : Option String × String)
    (rest : List ((Nat × CKind) × (Option String × String))) :
    cacheFind ((k, v) :: rest) k = some v := by
  simp [cacheFind]

theorem nodupB_nodup : ∀ l : List String, nodupB l = true → l.Nodup := by
  intro l
  induction l with
  | nil => intro _; exact List.nodup_nil
  | cons x xs ih =>
    intro h
    simp only [nodupB, Bool.and_eq_true, Bool.not_eq_true'] at h
    refine List.Nodup.cons ?_ (ih h.2)
    intro hmem
    have hc : xs.contains x = true := List.elem_eq_true_of_mem hmem
    rw [hc] at h
    exact absurd h.1 (by simp)

/-- C1: in an alternative containing a cut item, the emitted control flow
initializes the per-alternative cut flag to false immediately before the
conjunction and ends with the mark reset followed by the cut-triggered
failure return; the cut item itself compiles to the flag-setting binding
(var cut true); and in the runtime semantics of that control flow, a
conjunction that fails with the flag set fails the whole rule without
attempting any later alternative, a conjunction that fails with the flag
clear falls through to the remaining alternatives, and execution that passes
the cut item always continues with the flag set. -/
theorem claim1_cut_semantics :
    (∀ st alt isLoop isGather, alt.items.any isCutNamed = true →
      ∃ mid : List OutLine, (stmtAlt st alt isLoop isGather).1 =
        (0, "(set cut False)") :: (0, if isLoop then "(while (and " else "(when (and ") ::
          (mid ++ [(0, "(:_reset self mark)"), (0, "(when cut (return nil))")])) ∧
    (∀ st, stmtNamedItem st (NamedItem.mk none Item.cut) none false =
      ([(0, "(var cut true)")], st)) ∧
    (∀ eval items act rest mark, runItems eval items mark false = (none, true) →
      runAlts eval (Alt.mk items act :: rest) mark = none) ∧
    (∀ eval items act rest mark, runItems eval items mark false = (none, false) →
      runAlts eval (Alt.mk items act :: rest) mark = runAlts eval rest mark) ∧
    (∀ eval pre nm post mark pos c c2, runItems eval pre mark c = (some pos, c2) →
      runItems eval (pre ++ NamedItem.mk nm Item.cut :: post) mark c =
        runItems eval post pos true) := by
  refine ⟨?_, ?_, ?_, ?_, ?_⟩
  · intro st alt isLoop isGather h
    obtain ⟨items, act⟩ := alt
    simp only [Alt.items] at h
    simp only [stmtAlt, h, if_true]
    exact cons_mid_shape _ _ _ _ _ _ _
  · intro st
    simp [stmtNamedItem, cmVisit, show "cut".isEmpty = false from rfl]
  · intro eval items act rest mark h
    simp [runAlts, h]
  · intro eval items act rest mark h
    simp [runAlts, h]
  · intro eval pre
    induction pre with
    | nil =>
      intro nm post mark pos c c2 h
      simp only [runItems] at h
      obtain ⟨h1, h2⟩ := Prod.mk.injEq .. ▸ h
      obtain rfl : mark = pos := Option.some.injEq .. ▸ h1
      simp [runItems, isCutNamed]
    | cons hd tl ih =>
      intro nm post mark pos c c2 h
      simp only [List.cons_append, runItems] at h ⊢
      by_cases hc : isCutNamed hd = true
      · rw [hc] at h ⊢
        simp only [if_true] at h ⊢
        exact ih nm post mark pos true c2 h
      · rw [Bool.not_eq_true] at hc
        rw [hc] at h ⊢
        simp only [Bool.false_eq_true, if_false] at h ⊢
        cases hv : eval hd.item mark with
        | some p2 =>
          rw [hv] at h
          exact ih nm post p2 pos c c2 h
        | none =>
          rw [hv] at h
          exact Option.noConfusion (congrArg Prod.fst h)

/-- C1 witness: a concrete alternative with a leading cut, under an oracle
where the first item after the cut succeeds and the next fails: the emitted
block has the documented shape and the rule fails without trying the sibling
alternative. -/
theorem claim1_witness :
    (∃ mid : List OutLine, (stmtAlt (initSt exG6) exCutAlt false false).1 =
      (0, "(set cut False)") :: (0, "(when (and ") ::
        (mid ++ [(0, "(:_reset self mark)"), (0, "(when cut (return nil))")])) ∧
    runAlts exEval [exCutAlt, exAltB] 0 = none := by
  constructor
  · simpa using claim1_cut_semantics.1 (initSt exG6) exCutAlt false false (by decide)
  · exact claim1_cut_semantics.2.2.1 exEval _ none [exAltB] 0 (by decide)

/-- C2: the decoration is selected exactly by the analysis flags: leader of a
left-recursive cycle receives the left-recursion memoization, a non-leader
cycle member only the logger decoration (no memoization), every other rule
the standard memoization; and the rule is emitted as a decorated callable
function whose header carries that decoration and the rule name. -/
theorem claim2_decoration (st : GenSt) (r : Rule) :
    (r.leftRecursive = true → r.leader = true → ruleDecorators r = ["memoize_left_rec"]) ∧
    (r.leftRecursive = true → r.leader = false →
      ruleDecorators r = ["@logger"] ∧ "@memoize" ∉ ruleDecorators r ∧
        "memoize_left_rec" ∉ ruleDecorators r) ∧
    (r.leftRecursive = false → ruleDecorators r = ["@memoize"]) ∧
    (visitRule st r).1.head? = some (0, ruleHeaderLine r) ∧
    ruleHeaderLine r = "(" ++ "decorated-defn" ++ " " ++
      ("[" ++ String.intercalate "," (ruleDecorators r) ++ "]") ++ " " ++ r.name ++ " [self]" := by
  have hne : (ruleDecorators r).isEmpty = false := by
    unfold ruleDecorators; split_ifs <;> rfl
  refine ⟨fun h1 h2 => by simp [ruleDecorators, h1, h2],
         fun h1 h2 => by simp [ruleDecorators, h1, h2],
         fun h1 => by simp [ruleDecorators, h1],
         by simp [visitRule],
         by simp [ruleHeaderLine, hne]⟩

/-- C2 witness: a concrete left-recursive non-leader rule gets only the
logger decoration. -/
theorem claim2_witness :
    ruleDecorators exRuleLR = ["@logger"] ∧ "@memoize" ∉ ruleDecorators exRuleLR ∧
      "memoize_left_rec" ∉ ruleDecorators exRuleLR :=
  (claim2_decoration (initSt exG6) exRuleLR).2.1 rfl rfl

/-- C4 counterexample: for the grammar start: NAME PLUS-literal NUMBER with
no action, the emitted function does not return the two-element sequence of
the claim; its result sequence also contains the value bound for the
literal. -/
theorem claim4_counterexample :
    (((visitRule (initSt exG4) exRule4).1.map Prod.snd).contains
        "(return [name, number])" = false) ∧
    (((visitRule (initSt exG4) exRule4).1.map Prod.snd).contains
        "(return [name, literal, number])" = true) := by
  constructor
  · decide
  · decide

/-- C4 amended: the function emitted for that grammar matches the name
terminal, the literal and the number terminal in that order, and returns the
three bound values name, literal and number in binding order: the literal is
bound under the dummy name literal and is included in the result. -/
theorem claim4_amended :
    (visitRule (initSt exG4) exRule4).1 =
      [(0, "(decorated-defn [@memoize] start [self]"),
       (1, "# start: NAME \x27+\x27 NUMBER"),
       (1, "(var mark (:_mark self))"),
       (1, "(when (and "),
       (2, "(var name (self name))"),
       (2, "(var literal (expect \"\x27+\x27\"))"),
       (2, "(var number (self number))"),
       (1, ")"),
       (2, "(return [name, literal, number])"),
       (1, "(:_reset self mark)"),
       (1, "(return None)"),
       (0, ")")] := by decide

/-- C5 counterexample: a grammar using the same identifier literal once
single-quoted and once double-quoted puts it in both emitted tables, so the
two tables are not disjoint. -/
theorem claim5_counterexample :
    (runGenerate exG5 "t" 3).map (fun r => (sortedKeywords r.2.2, sortedSoftKeywords r.2.2)) =
      some (["if"], ["if"]) := by decide

/-- C5 amended: an identifier-shaped literal is added to the exact-keyword
set when single-quoted and to the soft-keyword set otherwise, and each
emitted table is sorted and duplicate-free; disjointness of the two tables,
however, does not hold in general (see the counterexample). -/
theorem claim5_amended (st : GenSt) (v : String)
    (hkw : nodupB st.keywords = true) (hsk : nodupB st.softKeywords = true) :
    ((cmVisit st (Item.stringLeaf v)).2.keywords =
        if litIsIdentifier (literalEval v) && strTrails v ⟨[squoteC]⟩
        then setInsert (literalEval v) st.keywords else st.keywords) ∧
    ((cmVisit st (Item.stringLeaf v)).2.softKeywords =
        if litIsIdentifier (literalEval v) && !strTrails v ⟨[squoteC]⟩
        then setInsert (literalEval v) st.softKeywords else st.softKeywords) ∧
    List.Sorted strLeR (sortedKeywords st) ∧ (sortedKeywords st).Nodup ∧
    List.Sorted strLeR (sortedSoftKeywords st) ∧ (sortedSoftKeywords st).Nodup := by
  refine ⟨?_, ?_, List.sorted_insertionSort strLeR _, ?_,
         List.sorted_insertionSort strLeR _, ?_⟩
  · simp only [cmVisit]
    by_cases h1 : litIsIdentifier (literalEval v) = true <;>
      by_cases h2 : strTrails v ⟨[squoteC]⟩ = true <;>
      simp [h1, h2]
  · simp only [cmVisit]
    by_cases h1 : litIsIdentifier (literalEval v) = true <;>
      by_cases h2 : strTrails v ⟨[squoteC]⟩ = true <;>
      simp [h1, h2]
  · exact ((List.perm_insertionSort strLeR _).nodup_iff).2 (nodupB_nodup _ hkw)
  · exact ((List.perm_insertionSort strLeR _).nodup_iff).2 (nodupB_nodup _ hsk)

/-- C5 witness: the amended classification and table facts at a concrete
state and literal. -/
theorem claim5_witness :
    (cmVisit (initSt exG6) (Item.stringLeaf "\x27if\x27")).2.keywords =
      setInsert "if" [] ∧ (sortedKeywords (initSt exG6)).Nodup := by
  have h := claim5_amended (initSt exG6) "\x27if\x27" rfl rfl
  exact ⟨by rw [h.1]; decide, h.2.2.2.1⟩

theorem cmVisit_group (st : GenSt) (rhs : Rhs) :
    cmVisit st (Item.group rhs) = cmVisitRhs st rhs := by
  simp [cmVisit]

theorem strData_append (s t : String) : (s ++ t).data = s.data ++ t.data := by
  cases s
  cases t
  rfl

theorem leadsList_append_left : ∀ (p a b : List Char), p.length ≤ a.length →
    leadsList p (a ++ b) = leadsList p a := by
  intro p
  induction p with
  | nil => intro a b _; rfl
  | cons x xs ih =>
    intro a b h
    cases a with
    | nil => simp at h
    | cons y ys =>
      simp only [List.cons_append, leadsList]
      by_cases hxy : x = y
      · simp only [hxy, if_true]
        exact ih ys b (by simpa using h)
      · simp [hxy]

theorem strTrails_append (s x p : String) (h : p.data.length ≤ x.data.length) :
    strTrails (s ++ x) p = strTrails x p := by
  unfold strTrails
  rw [strData_append, List.reverse_append]
  exact leadsList_append_left _ _ _ (by simpa using h)

theorem strTrails_comma_of_double (x : String) (h : strTrails x ",," = true) :
    strTrails x "," = true := by
  unfold strTrails at h ⊢
  rw [show (",,".data.reverse) = [',', ','] from rfl] at h
  rw [show (",".data.reverse) = [','] from rfl]
  cases hx : x.data.reverse with
  | nil => rw [hx] at h; exact absurd h (by simp [leadsList])
  | cons c cs =>
    rw [hx] at h
    simp only [leadsList] at h ⊢
    by_cases hc : (',' : Char) = c
    · simp [leadsList, if_pos hc]
    · simp [hc] at h

theorem strTrails_concat_comma (c : String) :
    strTrails (c ++ ",") ",," = strTrails c "," := by
  unfold strTrails
  rw [strData_append, List.reverse_append]
  rw [show (",".data.reverse) = [','] from rfl, show (",,".data.reverse) = [',', ','] from rfl]
  simp [leadsList]

theorem callHeadB_concat (a b : String) (ha : callHeadB a = true) :
    callHeadB (a ++ b) = true := by
  unfold callHeadB at ha ⊢
  rw [strData_append]
  cases hd : a.data with
  | nil => rw [hd] at ha; exact absurd ha (by simp)
  | cons c cs =>
    rw [hd] at ha
    simp only [List.cons_append]
    exact ha

theorem callInvB_of_paren (s : String) (hs : callHeadB s = true) :
    callInvB (s ++ ")") = true := by
  unfold callInvB
  have h1 : strTrails (s ++ ")") "," = false := by
    rw [strTrails_append s ")" "," (by decide)]
    decide
  have h2 : strTrails (s ++ ")") ",," = false := by
    cases h : strTrails (s ++ ")") ",,"
    · rfl
    · exact absurd (strTrails_comma_of_double _ h) (by simp [h1])
  rw [h2]
  simp [callHeadB_concat s ")" hs]

theorem callInvB_of_paren_comma (s : String) (hs : callHeadB s = true) :
    callInvB (s ++ "),") = true := by
  unfold callInvB
  have h2 : strTrails (s ++ "),") ",," = false := by
    rw [strTrails_append s ")," ",," (by decide)]
    decide
  rw [h2]
  simp [callHeadB_concat s ")," hs]

theorem trails_comma_of_paren_comma (s : String) :
    strTrails (s ++ "),") "," = true := by
  rw [strTrails_append s ")," "," (by decide)]
  decide

theorem cacheFind_ok {cache : List ((Nat × CKind) × (Option String × String))}
    {k : Nat × CKind} {v : Option String × String}
    (hall : cache.all (fun e => entryOkB e.1.2 e.2.2) = true)
    (hfind : cacheFind cache k = some v) : entryOkB k.2 v.2 = true := by
  induction cache with
  | nil => simp [cacheFind] at hfind
  | cons e rest ih =>
    simp only [List.all_cons, Bool.and_eq_true] at hall
    simp only [cacheFind] at hfind
    split_ifs at hfind with he
    · cases hfind
      rw [← he]
      exact hall.1
    · exact ih hall.2 hfind

theorem callInvB_double (c : String) (h : callInvB c = true) :
    strTrails c ",," = false := by
  unfold callInvB at h
  simp only [Bool.and_eq_true, Bool.not_eq_true'] at h
  exact h.1

theorem callInvB_head (c : String) (h : callInvB c = true) : callHeadB c = true := by
  unfold callInvB at h
  simp only [Bool.and_eq_true] at h
  exact h.2

/-- C6: visiting the same compound node (group, zero-or-more repeat,
one-or-more repeat, or gather) a second time returns the identical pair from
the cache and leaves the state unchanged, so no second synthetic rule is
created. -/
theorem claim6_cache_idempotent (st : GenSt) (i : Item) (hc : isCompound i = true) :
    cmVisit (cmVisit st i).2 i = cmVisit st i := by
  cases i <;> simp only [isCompound] at hc <;> try exact Bool.noConfusion hc
  case group rhs =>
    obtain ⟨id, alts⟩ := rhs
    cases hl : cacheFind st.cache (id, CKind.rhs) with
    | some v =>
      have key : cmVisit st (Item.group (Rhs.mk id alts)) = (v, st) := by
        rw [cmVisit_group]
        simp only [cmVisitRhs]
        rw [hl]
      rw [key]
      exact key
    | none =>
      have key : cmVisit st (Item.group (Rhs.mk id alts)) =
          ((cmRhsBody st id alts).1,
           { (cmRhsBody st id alts).2 with
             cache := ((id, CKind.rhs), (cmRhsBody st id alts).1) ::
               (cmRhsBody st id alts).2.cache }) := by
        rw [cmVisit_group]
        simp only [cmVisitRhs]
        rw [hl]
      rw [key, cmVisit_group]
      simp only [cmVisitRhs]
      simp [cacheFind]
  case repeat0 id inner =>
    cases hl : cacheFind st.cache (id, CKind.rep0) with
    | some v =>
      have key : cmVisit st (Item.repeat0 id inner) = (v, st) := by
        simp only [cmVisit]
        rw [hl]
      rw [key]
      exact key
    | none =>
      simp only [cmVisit]
      rw [hl]
      simp [cacheFind]
  case repeat1 id inner =>
    cases hl : cacheFind st.cache (id, CKind.rep1) with
    | some v =>
      have key : cmVisit st (Item.repeat1 id inner) = (v, st) := by
        simp only [cmVisit]
        rw [hl]
      rw [key]
      exact key
    | none =>
      simp only [cmVisit]
      rw [hl]
      simp [cacheFind]
  case gather id sep elem =>
    cases hl : cacheFind st.cache (id, CKind.gather) with
    | some v =>
      have key : cmVisit st (Item.gather id sep elem) = (v, st) := by
        simp only [cmVisit]
        rw [hl]
      rw [key]
      exact key
    | none =>
      simp only [cmVisit]
      rw [hl]
      simp [cacheFind]

/-- C6 witness: re-visiting a concrete repeat node returns the cached pair
and the unchanged state. -/
theorem claim6_witness :
    cmVisit (cmVisit (initSt exG6) exRepeat0).2 exRepeat0 = cmVisit (initSt exG6) exRepeat0 :=
  claim6_cache_idempotent (initSt exG6) exRepeat0 (by decide)

/-- C8: with the skip-actions option set, every registered backend fails at
generator construction with the unsupported-configuration error, and nothing
is written to the (freshly truncated) output file. -/
theorem claim8_skip_actions (nb : String × BackendKind)
    (hmem : nb ∈ buildersByGeneratorName) (cfg : BuilderConfig)
    (hskip : cfg.skipActions = true) (g : Grammar) (filename : String) (fuel : Nat) :
    buildGenerator nb.2 cfg g filename fuel = ([], Except.error skipActionsError) := by
  have hnb : nb = ("python", BackendKind.python) ∨ nb = ("janet", BackendKind.janet) := by
    simpa [buildersByGeneratorName] using hmem
  rcases hnb with h | h <;> subst h <;>
    simp [buildGenerator, createGenerator, hskip]

/-- C8 witness: the janet backend with skip-actions set fails with the error
and writes nothing. -/
theorem claim8_witness :
    buildGenerator BackendKind.janet ⟨false, false, true⟩ exG4 "g.gram" 3 =
      ([], Except.error skipActionsError) :=
  claim8_skip_actions ("janet", BackendKind.janet) (by decide) ⟨false, false, true⟩ rfl
    exG4 "g.gram" 3

/-- C9: generation is a pure function of the grammar AST and the
skip-actions flag: running it twice with the same configuration gives the
same output, and the two verbosity toggles never change the result. -/
theorem claim9_deterministic (b : BackendKind) (g : Grammar) (filename : String)
    (fuel : Nat) (cfg1 cfg2 : BuilderConfig) (hskip : cfg1.skipActions = cfg2.skipActions) :
    buildGenerator b cfg1 g filename fuel = buildGenerator b cfg1 g filename fuel ∧
    buildGenerator b cfg1 g filename fuel = buildGenerator b cfg2 g filename fuel := by
  refine ⟨rfl, ?_⟩
  obtain ⟨v1, p1, s1⟩ := cfg1
  obtain ⟨v2, p2, s2⟩ := cfg2
  have hs : s1 = s2 := hskip
  subst hs
  cases b <;> rfl

/-- C9 witness: toggling both verbosity flags leaves the built output
unchanged on a concrete grammar. -/
theorem claim9_witness :
    buildGenerator BackendKind.janet ⟨false, false, false⟩ exG4 "g.gram" 3 =
      buildGenerator BackendKind.janet ⟨true, true, false⟩ exG4 "g.gram" 3 :=
  (claim9_deterministic BackendKind.janet exG4 "g.gram" 3
    ⟨false, false, false⟩ ⟨true, true, false⟩ rfl).2

theorem cmVisit_inv (st : GenSt) (hst : cacheInvB st = true) : ∀ i : Item,
    callInvB (cmVisit st i).1.2 = true ∧ cacheInvB (cmVisit st i).2 = true := by
  refine cmVisit.induct st
    (fun i => callInvB (cmVisit st i).1.2 = true ∧ cacheInvB (cmVisit st i).2 = true)
    (fun rhs => callInvB (cmVisitRhs st rhs).1.2 = true ∧ cacheInvB (cmVisitRhs st rhs).2 = true)
    (fun id alts => callInvB (cmRhsBody st id alts).1.2 = true ∧
      cacheInvB (cmRhsBody st id alts).2 = true)
    ?_ ?_ ?_ ?_ ?_ ?_ ?_ ?_ ?_ ?_ ?_ ?_ ?_ ?_ ?_ ?_ ?_ ?_ ?_ ?_ ?_ ?_
  · intro v
    refine ⟨?_, by simp only [cmVisit]; exact hst⟩
    simp only [cmVisit, cmNameLeaf]
    split_ifs
    · decide
    · apply callInvB_of_paren
      repeat apply callHeadB_concat
      decide
    · apply callInvB_of_paren
      repeat apply callHeadB_concat
      decide
    · apply callInvB_of_paren
      repeat apply callHeadB_concat
      decide
  · intro v
    constructor
    · simp only [cmVisit]
      apply callInvB_of_paren
      repeat apply callHeadB_concat
      decide
    · simp only [cmVisit]
      split_ifs <;> simpa [cacheInvB] using hst
  · intro rhs ih
    simp only [cmVisit_group]
    exact ih
  · intro i r ht ih
    have ht2 : strTrails (cmVisit st i).1.2 "," = true := ht
    have key : cmVisit st (Item.opt i) = ((some "opt", (cmVisit st i).1.2), (cmVisit st i).2) := by
      simp only [cmVisit]
      rw [if_pos ht2]
    rw [key]
    exact ih
  · intro i r ht ih
    have ht2 : ¬ strTrails (cmVisit st i).1.2 "," = true := ht
    have key : cmVisit st (Item.opt i) =
        ((some "opt", (cmVisit st i).1.2 ++ ","), (cmVisit st i).2) := by
      simp only [cmVisit]
      rw [if_neg ht2]
    rw [key]
    refine ⟨?_, ih.2⟩
    rw [Bool.not_eq_true] at ht2
    unfold callInvB
    rw [strTrails_concat_comma, ht2]
    simp [callHeadB_concat _ "," (callInvB_head _ ih.1)]
  · intro id i v heq
    have key : cmVisit st (Item.repeat0 id i) = (v, st) := by
      simp only [cmVisit]
      rw [heq]
    rw [key]
    refine ⟨?_, hst⟩
    have h2 := cacheFind_ok (show st.cache.all _ = true from hst) heq
    simp only [entryOkB, Bool.and_eq_true] at h2
    exact h2.2
  · intro id i heq
    have key : cmVisit st (Item.repeat0 id i) =
        ((some (nameLoop st i false).1, "(self " ++ (nameLoop st i false).1 ++ "),"),
         { (nameLoop st i false).2 with
           cache := ((id, CKind.rep0),
             (some (nameLoop st i false).1, "(self " ++ (nameLoop st i false).1 ++ "),")) ::
               (nameLoop st i false).2.cache }) := by
      simp only [cmVisit]
      rw [heq]
    rw [key]
    constructor
    · apply callInvB_of_paren_comma
      repeat apply callHeadB_concat
      decide
    · simp only [cacheInvB, List.all_cons, Bool.and_eq_true]
      refine ⟨?_, ?_⟩
      · simp only [entryOkB, Bool.and_eq_true]
        refine ⟨trails_comma_of_paren_comma _, ?_⟩
        apply callInvB_of_paren_comma
        repeat apply callHeadB_concat
        decide
      · have hc : (nameLoop st i false).2.cache = st.cache := rfl
        rw [hc]
        exact hst
  · intro id i v heq
    have key : cmVisit st (Item.repeat1 id i) = (v, st) := by
      simp only [cmVisit]
      rw [heq]
    rw [key]
    refine ⟨?_, hst⟩
    have h2 := cacheFind_ok (show st.cache.all _ = true from hst) heq
    simp only [entryOkB, Bool.and_eq_true] at h2
    exact h2.2
  · intro id i heq
    have key : cmVisit st (Item.repeat1 id i) =
        ((some (nameLoop st i true).1, "(self " ++ (nameLoop st i true).1 ++ ")"),
         { (nameLoop st i true).2 with
           cache := ((id, CKind.rep1),
             (some (nameLoop st i true).1, "(self " ++ (nameLoop st i true).1 ++ ")")) ::
               (nameLoop st i true).2.cache }) := by
      simp only [cmVisit]
      rw [heq]
    rw [key]
    constructor
    · apply callInvB_of_paren
      repeat apply callHeadB_concat
      decide
    · simp only [cacheInvB, List.all_cons, Bool.and_eq_true]
      refine ⟨?_, ?_⟩
      · simp only [entryOkB, Bool.and_eq_true, Bool.not_eq_true']
        have hpar : callInvB ("(self " ++ (nameLoop st i true).1 ++ ")") = true := by
          apply callInvB_of_paren
          repeat apply callHeadB_concat
          decide
        refine ⟨?_, hpar⟩
        rw [strTrails_append _ ")" "," (by decide)]
        decide
      · have hc : (nameLoop st i true).2.cache = st.cache := rfl
        rw [hc]
        exact hst
  · intro id sepi e v heq
    have key : cmVisit st (Item.gather id sepi e) = (v, st) := by
      simp only [cmVisit]
      rw [heq]
    rw [key]
    refine ⟨?_, hst⟩
    have h2 := cacheFind_ok (show st.cache.all _ = true from hst) heq
    simp only [entryOkB, Bool.and_eq_true] at h2
    exact h2.2
  · intro id sepi e heq
    have key : cmVisit st (Item.gather id sepi e) =
        ((some (nameGather st sepi e).1, "(self " ++ (nameGather st sepi e).1 ++ ")"),
         { (nameGather st sepi e).2 with
           cache := ((id, CKind.gather),
             (some (nameGather st sepi e).1, "(self " ++ (nameGather st sepi e).1 ++ ")")) ::
               (nameGather st sepi e).2.cache }) := by
      simp only [cmVisit]
      rw [heq]
    rw [key]
    constructor
    · apply callInvB_of_paren
      repeat apply callHeadB_concat
      decide
    · simp only [cacheInvB, List.all_cons, Bool.and_eq_true]
      refine ⟨?_, ?_⟩
      · simp only [entryOkB, Bool.and_eq_true, Bool.not_eq_true']
        have hpar : callInvB ("(self " ++ (nameGather st sepi e).1 ++ ")") = true := by
          apply callInvB_of_paren
          repeat apply callHeadB_concat
          decide
        refine ⟨?_, hpar⟩
        rw [strTrails_append _ ")" "," (by decide)]
        decide
      · have hc : (nameGather st sepi e).2.cache = st.cache := rfl
        rw [hc]
        exact hst
  · intro i ih
    refine ⟨?_, by simp only [cmVisit]; exact ih.2⟩
    simp only [cmVisit]
    apply callInvB_of_paren
    repeat apply callHeadB_concat
    decide
  · intro i ih
    refine ⟨?_, by simp only [cmVisit]; exact ih.2⟩
    simp only [cmVisit]
    apply callInvB_of_paren
    repeat apply callHeadB_concat
    decide
  · exact ⟨by simp only [cmVisit]; decide, by simp only [cmVisit]; exact hst⟩
  · intro rhs ih
    refine ⟨?_, by simp only [cmVisit]; exact ih.2⟩
    simp only [cmVisit]
    apply callInvB_of_paren
    repeat apply callHeadB_concat
    decide
  · intro v
    refine ⟨?_, by simp only [cmVisit]; exact hst⟩
    simp only [cmVisit]
    apply callInvB_of_paren
    repeat apply callHeadB_concat
    decide
  · intro v
    refine ⟨?_, by simp only [cmVisit]; exact hst⟩
    simp only [cmVisit]
    apply callInvB_of_paren
    repeat apply callHeadB_concat
    decide
  · intro i h1 h2 h3
    cases i
    case group rhs => exact absurd rfl (h1 rhs)
    case stringLeaf v => exact absurd rfl (h2 v)
    case nameLeaf v => exact absurd rfl (h3 v)
    all_goals
      refine ⟨?_, by simp only [cmVisit]; exact hst⟩
    all_goals
      simp only [cmVisit]
      apply callInvB_of_paren
      repeat apply callHeadB_concat
      decide
  · intro id a v heq
    have key : cmVisitRhs st (Rhs.mk id a) = (v, st) := by
      simp only [cmVisitRhs]
      rw [heq]
    rw [key]
    refine ⟨?_, hst⟩
    have h2 := cacheFind_ok (show st.cache.all _ = true from hst) heq
    simpa only [entryOkB] using h2
  · intro id a heq ih
    have key : cmVisitRhs st (Rhs.mk id a) =
        ((cmRhsBody st id a).1,
         { (cmRhsBody st id a).2 with
           cache := ((id, CKind.rhs), (cmRhsBody st id a).1) :: (cmRhsBody st id a).2.cache }) := by
      simp only [cmVisitRhs]
      rw [heq]
    rw [key]
    refine ⟨ih.1, ?_⟩
    simp only [cacheInvB, List.all_cons, Bool.and_eq_true]
    refine ⟨?_, ih.2⟩
    simpa only [entryOkB] using ih.1
  · intro id oname inner _act ih
    simp only [cmRhsBody]
    exact ih
  · intro id other hno
    rw [cmRhsBody.eq_2 st id other hno]
    constructor
    · apply callInvB_of_paren
      repeat apply callHeadB_concat
      decide
    · have hc : (nameNode st (Rhs.mk id other)).2.cache = st.cache := rfl
      simp only [cacheInvB, hc]
      exact hst

/-- C3: the call text produced by the expression visitor obeys the separator
convention: a one-or-more repeat never ends in the list separator, a
zero-or-more repeat always does, a gather never does, and an optional item
always ends in exactly one trailing separator (one is appended unless the
inner call already ends with one, and a doubled separator never occurs). -/
theorem claim3_separator_convention (st : GenSt) (hst : cacheInvB st = true) :
    (∀ id x, strTrails (cmVisit st (Item.repeat1 id x)).1.2 "," = false) ∧
    (∀ id x, strTrails (cmVisit st (Item.repeat0 id x)).1.2 "," = true) ∧
    (∀ id sepi e, strTrails (cmVisit st (Item.gather id sepi e)).1.2 "," = false) ∧
    (∀ x, strTrails (cmVisit st (Item.opt x)).1.2 "," = true ∧
      strTrails (cmVisit st (Item.opt x)).1.2 ",," = false) := by
  refine ⟨?_, ?_, ?_, ?_⟩
  · intro id x
    cases heq : cacheFind st.cache (id, CKind.rep1) with
    | some v =>
      have key : cmVisit st (Item.repeat1 id x) = (v, st) := by
        simp only [cmVisit]
        rw [heq]
      rw [key]
      have h2 := cacheFind_ok (show st.cache.all _ = true from hst) heq
      simp only [entryOkB, Bool.and_eq_true, Bool.not_eq_true'] at h2
      exact h2.1
    | none =>
      have key : (cmVisit st (Item.repeat1 id x)).1.2 =
          "(self " ++ (nameLoop st x true).1 ++ ")" := by
        simp only [cmVisit]
        rw [heq]
      rw [key, strTrails_append _ ")" "," (by decide)]
      decide
  · intro id x
    cases heq : cacheFind st.cache (id, CKind.rep0) with
    | some v =>
      have key : cmVisit st (Item.repeat0 id x) = (v, st) := by
        simp only [cmVisit]
        rw [heq]
      rw [key]
      have h2 := cacheFind_ok (show st.cache.all _ = true from hst) heq
      simp only [entryOkB, Bool.and_eq_true] at h2
      exact h2.1
    | none =>
      have key : (cmVisit st (Item.repeat0 id x)).1.2 =
          "(self " ++ (nameLoop st x false).1 ++ ")," := by
        simp only [cmVisit]
        rw [heq]
      rw [key]
      exact trails_comma_of_paren_comma _
  · intro id sepi e
    cases heq : cacheFind st.cache (id, CKind.gather) with
    | some v =>
      have key : cmVisit st (Item.gather id sepi e) = (v, st) := by
        simp only [cmVisit]
        rw [heq]
      rw [key]
      have h2 := cacheFind_ok (show st.cache.all _ = true from hst) heq
      simp only [entryOkB, Bool.and_eq_true, Bool.not_eq_true'] at h2
      exact h2.1
    | none =>
      have key : (cmVisit st (Item.gather id sepi e)).1.2 =
          "(self " ++ (nameGather st sepi e).1 ++ ")" := by
        simp only [cmVisit]
        rw [heq]
      rw [key, strTrails_append _ ")" "," (by decide)]
      decide
  · intro x
    have hin := cmVisit_inv st hst x
    by_cases ht : strTrails (cmVisit st x).1.2 "," = true
    · have key : cmVisit st (Item.opt x) =
          ((some "opt", (cmVisit st x).1.2), (cmVisit st x).2) := by
        simp only [cmVisit]
        rw [if_pos ht]
      rw [key]
      exact ⟨ht, callInvB_double _ hin.1⟩
    · have key : cmVisit st (Item.opt x) =
          ((some "opt", (cmVisit st x).1.2 ++ ","), (cmVisit st x).2) := by
        simp only [cmVisit]
        rw [if_neg ht]
      rw [key]
      rw [Bool.not_eq_true] at ht
      constructor
      · rw [strTrails_append _ "," "," (by decide)]
        decide
      · rw [strTrails_concat_comma]
        exact ht

/-- C3 witness: the convention at concrete nodes in the initial state. -/
theorem claim3_witness :
    strTrails (cmVisit (initSt exG6) (Item.repeat1 7 (Item.nameLeaf "x"))).1.2 "," = false ∧
    strTrails (cmVisit (initSt exG6) (Item.repeat0 8 (Item.nameLeaf "x"))).1.2 "," = true ∧
    strTrails (cmVisit (initSt exG6) (Item.gather 9 (Item.stringLeaf "\x27,\x27")
      (Item.nameLeaf "x"))).1.2 "," = false ∧
    strTrails (cmVisit (initSt exG6) (Item.opt (Item.nameLeaf "x"))).1.2 "," = true ∧
    strTrails (cmVisit (initSt exG6) (Item.opt (Item.nameLeaf "x"))).1.2 ",," = false := by
  have h := claim3_separator_convention (initSt exG6) (by decide)
  exact ⟨h.1 7 _, h.2.1 8 _, h.2.2.1 9 _ _, (h.2.2.2 _).1, (h.2.2.2 _).2⟩

/-- C10 counterexample: in a rule named ...without_invalid whose alternative
contains a cut, the emitted cut-triggered early return (when cut (return
nil)) is not preceded by the restore statement, so not every return path
restores the saved flag. -/
theorem claim10_counterexample :
    returnsRestoreB invalidCleanupStmt ""
      ((visitRule (initSt exG6) exRuleWI).1.map Prod.snd) = false ∧
    "(when cut (return nil))" ∈ (visitRule (initSt exG6) exRuleWI).1.map Prod.snd ∧
    strHas "(when cut (return nil))" "(return" = true := by
  refine ⟨by decide, by decide, by decide⟩

end Pegen

namespace Pegen

theorem leadsList_false_of_mismatch : ∀ (p a : List Char), mismatchB p a = true →
    ∀ b, leadsList p (a ++ b) = false := by
  intro p
  induction p with
  | nil => intro a h b; simp [mismatchB] at h
  | cons c cs ih =>
    intro a h b
    cases a with
    | nil => simp [mismatchB] at h
    | cons d ds =>
      simp only [mismatchB] at h
      by_cases hc : c = d
      · rw [if_pos hc] at h
        simp only [List.cons_append, leadsList, if_pos hc]
        exact ih ds h b
      · simp only [List.cons_append, leadsList, if_neg hc]

theorem strAppend_assoc : ∀ (a b c : String), a ++ b ++ c = a ++ (b ++ c)
  | ⟨la⟩, ⟨lb⟩, ⟨lc⟩ => congrArg String.mk (List.append_assoc la lb lc)

theorem isRetB_app1 (l1 x : String) (h : mismatchB "(return ".data l1.data = true) :
    isRetB (l1 ++ x) = false := by
  unfold isRetB strLeads
  rw [strData_append]
  exact leadsList_false_of_mismatch _ _ h _

theorem isRetB_app2 (l1 l2 x : String)
    (h : mismatchB "(return ".data (l1.data ++ l2.data) = true) :
    isRetB (l1 ++ (l2 ++ x)) = false := by
  unfold isRetB strLeads
  rw [strData_append, strData_append, ← List.append_assoc]
  exact leadsList_false_of_mismatch _ _ h _

theorem isRetB_unnamed (call x : String) (h : callHeadB call = true) :
    isRetB ("(" ++ (call ++ x)) = false := by
  unfold isRetB strLeads
  rw [strData_append, strData_append]
  cases hd : call.data with
  | nil =>
    simp only [callHeadB, hd] at h
    exact absurd h (by simp)
  | cons d rest =>
    simp only [callHeadB, hd] at h
    have hdt : d = '(' ∨ d = 't' := by simpa using h
    have hp : "(".data = ['('] := rfl
    rw [hp]
    rcases hdt with h1 | h1 <;> subst h1 <;> rfl

theorem retSafe_nil (g : String) : ∀ p, retGuardedB g p [] = true := fun _ => rfl

theorem retSafe_cons (g l : String) (ls : List String) (hl : isRetB l = false)
    (hs : ∀ p, retGuardedB g p ls = true) :
    ∀ p, retGuardedB g p (l :: ls) = true := by
  intro p
  simp [retGuardedB, hl, hs l]

theorem retSafe_single (g l : String) (hl : isRetB l = false) :
    ∀ p, retGuardedB g p [l] = true :=
  retSafe_cons g l [] hl (retSafe_nil g)

theorem retGuardedB_append_of (g : String) (b : List String)
    (hb : ∀ q, retGuardedB g q b = true) :
    ∀ (a : List String) (p : String), retGuardedB g p a = true →
      retGuardedB g p (a ++ b) = true := by
  intro a
  induction a with
  | nil => intro p _; exact hb p
  | cons x xs ih =>
    intro p hp
    simp only [retGuardedB, Bool.and_eq_true] at hp
    simp only [List.cons_append, retGuardedB, Bool.and_eq_true]
    exact ⟨hp.1, ih x hp.2⟩

theorem retSafe_append (g : String) (a b : List String)
    (ha : ∀ p, retGuardedB g p a = true) (hb : ∀ p, retGuardedB g p b = true) :
    ∀ p, retGuardedB g p (a ++ b) = true :=
  fun p => retGuardedB_append_of g b hb a p (ha p)

theorem retSafe_ite (g : String) (b : Bool) (xs ys : List String)
    (hx : ∀ p, retGuardedB g p xs = true) (hy : ∀ p, retGuardedB g p ys = true) :
    ∀ p, retGuardedB g p (if b then xs else ys) = true := by
  cases b
  · simpa using hy
  · simpa using hx

theorem retSafe_guard_ret (g rv : String) (hg : isRetB g = false) :
    ∀ p, retGuardedB g p [g, "(return " ++ rv ++ ")"] = true := by
  intro p
  simp [retGuardedB, hg]

theorem shift1_map_snd (ls : List OutLine) : (shift1 ls).map Prod.snd = ls.map Prod.snd := by
  induction ls with
  | nil => rfl
  | cons x xs ih => simpa [shift1] using ih

theorem addReturn_map_snd (st : GenSt) (rv : String) (g : String)
    (hcl : st.cleanupStatements = [g]) :
    (addReturn st rv).map Prod.snd = [g, "(return " ++ rv ++ ")"] := by
  simp [addReturn, hcl]

theorem cmVisit_cleanup (st : GenSt) : ∀ i : Item,
    (cmVisit st i).2.cleanupStatements = st.cleanupStatements := by
  refine cmVisit.induct st
    (fun i => (cmVisit st i).2.cleanupStatements = st.cleanupStatements)
    (fun rhs => (cmVisitRhs st rhs).2.cleanupStatements = st.cleanupStatements)
    (fun id alts => (cmRhsBody st id alts).2.cleanupStatements = st.cleanupStatements)
    ?_ ?_ ?_ ?_ ?_ ?_ ?_ ?_ ?_ ?_ ?_ ?_ ?_ ?_ ?_ ?_ ?_ ?_ ?_ ?_ ?_ ?_
  · intro v
    simp only [cmVisit]
  · intro v
    simp only [cmVisit]
    split_ifs <;> rfl
  · intro rhs ih
    simp only [cmVisit_group]
    exact ih
  · intro i r ht ih
    have ht2 : strTrails (cmVisit st i).1.2 "," = true := ht
    have key : cmVisit st (Item.opt i) = ((some "opt", (cmVisit st i).1.2), (cmVisit st i).2) := by
      simp only [cmVisit]
      rw [if_pos ht2]
    rw [key]
    exact ih
  · intro i r ht ih
    have ht2 : ¬ strTrails (cmVisit st i).1.2 "," = true := ht
    have key : cmVisit st (Item.opt i) =
        ((some "opt", (cmVisit st i).1.2 ++ ","), (cmVisit st i).2) := by
      simp only [cmVisit]
      rw [if_neg ht2]
    rw [key]
    exact ih
  · intro id i v heq
    have key : cmVisit st (Item.repeat0 id i) = (v, st) := by
      simp only [cmVisit]
      rw [heq]
    rw [key]
  · intro id i heq
    have key : cmVisit st (Item.repeat0 id i) =
        ((some (nameLoop st i false).1, "(self " ++ (nameLoop st i false).1 ++ "),"),
         { (nameLoop st i false).2 with
           cache := ((id, CKind.rep0),
             (some (nameLoop st i false).1, "(self " ++ (nameLoop st i false).1 ++ "),")) ::
               (nameLoop st i false).2.cache }) := by
      simp only [cmVisit]
      rw [heq]
    rw [key]
    rfl
  · intro id i v heq
    have key : cmVisit st (Item.repeat1 id i) = (v, st) := by
      simp only [cmVisit]
      rw [heq]
    rw [key]
  · intro id i heq
    have key : cmVisit st (Item.repeat1 id i) =
        ((some (nameLoop st i true).1, "(self " ++ (nameLoop st i true).1 ++ ")"),
         { (nameLoop st i true).2 with
           cache := ((id, CKind.rep1),
             (some (nameLoop st i true).1, "(self " ++ (nameLoop st i true).1 ++ ")")) ::
               (nameLoop st i true).2.cache }) := by
      simp only [cmVisit]
      rw [heq]
    rw [key]
    rfl
  · intro id sepi e v heq
    have key : cmVisit st (Item.gather id sepi e) = (v, st) := by
      simp only [cmVisit]
      rw [heq]
    rw [key]
  · intro id sepi e heq
    have key : cmVisit st (Item.gather id sepi e) =
        ((some (nameGather st sepi e).1, "(self " ++ (nameGather st sepi e).1 ++ ")"),
         { (nameGather st sepi e).2 with
           cache := ((id, CKind.gather),
             (some (nameGather st sepi e).1, "(self " ++ (nameGather st sepi e).1 ++ ")")) ::
               (nameGather st sepi e).2.cache }) := by
      simp only [cmVisit]
      rw [heq]
    rw [key]
    rfl
  · intro i ih
    simp only [cmVisit]
    exact ih
  · intro i ih
    simp only [cmVisit]
    exact ih
  · simp only [cmVisit]
  · intro rhs ih
    simp only [cmVisit]
    exact ih
  · intro v
    simp only [cmVisit]
  · intro v
    simp only [cmVisit]
  · intro i h1 h2 h3
    cases i
    case group rhs => exact absurd rfl (h1 rhs)
    case stringLeaf v => exact absurd rfl (h2 v)
    case nameLeaf v => exact absurd rfl (h3 v)
    all_goals simp only [cmVisit]
  · intro id a v heq
    have key : cmVisitRhs st (Rhs.mk id a) = (v, st) := by
      simp only [cmVisitRhs]
      rw [heq]
    rw [key]
  · intro id a heq ih
    have key : cmVisitRhs st (Rhs.mk id a) =
        ((cmRhsBody st id a).1,
         { (cmRhsBody st id a).2 with
           cache := ((id, CKind.rhs), (cmRhsBody st id a).1) :: (cmRhsBody st id a).2.cache }) := by
      simp only [cmVisitRhs]
      rw [heq]
    rw [key]
    exact ih
  · intro id oname inner _act ih
    simp only [cmRhsBody]
    exact ih
  · intro id other hno
    rw [cmRhsBody.eq_2 st id other hno]
    rfl

end Pegen

namespace Pegen

theorem retSafe_mapped_ite (g : String) (b : Bool) (xs ys : List OutLine)
    (hx : ∀ p, retGuardedB g p (xs.map Prod.snd) = true)
    (hy : ∀ p, retGuardedB g p (ys.map Prod.snd) = true) :
    ∀ p, retGuardedB g p ((if b then xs else ys).map Prod.snd) = true := by
  cases b
  · simpa using hy
  · simpa using hx

theorem stmtNamedItem_cleanup (st : GenSt) (ni : NamedItem) (used : Option (List String))
    (unr : Bool) :
    (stmtNamedItem st ni used unr).2.cleanupStatements = st.cleanupStatements := by
  obtain ⟨oname, item⟩ := ni
  have hcl := cmVisit_cleanup st item
  simp only [stmtNamedItem]
  split
  · exact hcl
  · split_ifs <;> exact hcl

theorem stmtNamedItem_cache (st : GenSt) (ni : NamedItem) (used : Option (List String))
    (unr : Bool) (hcache : cacheInvB st = true) :
    cacheInvB (stmtNamedItem st ni used unr).2 = true := by
  obtain ⟨oname, item⟩ := ni
  have hv := (cmVisit_inv st hcache item).2
  simp only [stmtNamedItem]
  split
  · exact hv
  · split_ifs <;> exact hv

theorem stmtNamedItem_safe (st : GenSt) (ni : NamedItem) (used : Option (List String))
    (unr : Bool) (g : String) (hcache : cacheInvB st = true) :
    ∀ p, retGuardedB g p ((stmtNamedItem st ni used unr).1.map Prod.snd) = true := by
  obtain ⟨oname, item⟩ := ni
  have hhead : callHeadB (cmVisit st item).1.2 = true :=
    callInvB_head _ (cmVisit_inv st hcache item).1
  intro p
  simp only [stmtNamedItem]
  split
  · simp only [List.map_cons, List.map_nil]
    refine retSafe_single g _ ?_ p
    rw [strAppend_assoc]
    exact isRetB_unnamed _ _ hhead
  · split_ifs
    · simp only [List.map_cons, List.map_nil]
      refine retSafe_single g _ ?_ p
      rw [strAppend_assoc]
      exact isRetB_unnamed _ _ hhead
    · simp only [List.map_cons, List.map_nil]
      refine retSafe_single g _ ?_ p
      simp only [strAppend_assoc]
      exact isRetB_app1 _ _ (by decide)
    · simp only [List.map_cons, List.map_nil]
      refine retSafe_single g _ ?_ p
      simp only [strAppend_assoc]
      exact isRetB_app1 _ _ (by decide)

theorem printAction_st (st : GenSt) (action : Option String)
    (locations unr isG isL hasInv : Bool) :
    (printAction st action locations unr isG isL hasInv).2 = st := by
  cases isL <;> rfl

theorem printAction_safe (st : GenSt) (action : Option String)
    (locations unr isG isL hasInv : Bool) (g : String)
    (hg : isRetB g = false) (hcl : st.cleanupStatements = [g]) :
    ∀ p, retGuardedB g p
      ((printAction st action locations unr isG isL hasInv).1.map Prod.snd) = true := by
  intro p
  simp only [printAction]
  cases isL
  · simp only [Bool.false_eq_true, if_false, List.map_append]
    refine retSafe_append g _ _ ?_ ?_ p
    · refine retSafe_mapped_ite g locations _ _ ?_ ?_
      · intro q
        simp only [List.map_cons, List.map_nil]
        refine retSafe_cons g _ _ (by decide) ?_ q
        exact retSafe_single g _ (by decide)
      · exact retSafe_nil g
    · rw [addReturn_map_snd st _ g hcl]
      exact retSafe_guard_ret g _ hg
  · simp only [if_true, List.map_append]
    refine retSafe_append g _ _ ?_ ?_ p
    · refine retSafe_mapped_ite g locations _ _ ?_ ?_
      · intro q
        simp only [List.map_cons, List.map_nil]
        refine retSafe_cons g _ _ (by decide) ?_ q
        exact retSafe_single g _ (by decide)
      · exact retSafe_nil g
    · intro q
      simp only [List.map_cons, List.map_nil]
      refine retSafe_cons g _ _ ?_ ?_ q
      · simp only [strAppend_assoc]
        exact isRetB_app1 _ _ (by decide)
      · exact retSafe_single g _ (by decide)

theorem stmtItems_cleanup : ∀ (items : List NamedItem) (st : GenSt)
    (used : Option (List String)) (unr isG : Bool),
    (stmtItems st items used unr isG).2.cleanupStatements = st.cleanupStatements := by
  intro items
  induction items with
  | nil => intro st used unr isG; rfl
  | cons ni rest ih =>
    intro st used unr isG
    show (stmtItems (stmtNamedItem st ni used unr).2 rest used unr isG).2.cleanupStatements = _
    rw [ih, stmtNamedItem_cleanup]

theorem stmtItems_cache : ∀ (items : List NamedItem) (st : GenSt)
    (used : Option (List String)) (unr isG : Bool), cacheInvB st = true →
    cacheInvB (stmtItems st items used unr isG).2 = true := by
  intro items
  induction items with
  | nil => intro st used unr isG h; exact h
  | cons ni rest ih =>
    intro st used unr isG h
    show cacheInvB (stmtItems (stmtNamedItem st ni used unr).2 rest used unr isG).2 = true
    exact ih _ used unr isG (stmtNamedItem_cache st ni used unr h)

theorem stmtItems_safe (g : String) : ∀ (items : List NamedItem) (st : GenSt)
    (used : Option (List String)) (unr isG : Bool), cacheInvB st = true →
    ∀ p, retGuardedB g p ((stmtItems st items used unr isG).1.map Prod.snd) = true := by
  intro items
  induction items with
  | nil => intro st used unr isG h p; rfl
  | cons ni rest ih =>
    intro st used unr isG h p
    show retGuardedB g p ((((if isG then [((0 : Nat), "(not (nil? ")] else []) ++
        (stmtNamedItem st ni used unr).1 ++
        (if isG then [((0 : Nat), "))")] else [])) ++
        (stmtItems (stmtNamedItem st ni used unr).2 rest used unr isG).1).map Prod.snd) = true
    simp only [List.map_append]
    refine retSafe_append g _ _ (retSafe_append g _ _ (retSafe_append g _ _ ?_ ?_) ?_) ?_ p
    · refine retSafe_mapped_ite g isG _ _ ?_ (retSafe_nil g)
      intro q
      simp only [List.map_cons, List.map_nil]
      exact retSafe_single g _ (by decide) q
    · exact stmtNamedItem_safe st ni used unr g h
    · refine retSafe_mapped_ite g isG _ _ ?_ (retSafe_nil g)
      intro q
      simp only [List.map_cons, List.map_nil]
      exact retSafe_single g _ (by decide) q
    · exact ih _ used unr isG (stmtNamedItem_cache st ni used unr h)

end Pegen

namespace Pegen

theorem stmtAlt_cleanup (st : GenSt) (alt : Alt) (isL isG : Bool) :
    (stmtAlt st alt isL isG).2.cleanupStatements = st.cleanupStatements := by
  obtain ⟨items, action0⟩ := alt
  simp only [stmtAlt]
  rw [printAction_st, stmtItems_cleanup]

theorem stmtAlt_cache (st : GenSt) (alt : Alt) (isL isG : Bool)
    (h : cacheInvB st = true) : cacheInvB (stmtAlt st alt isL isG).2 = true := by
  obtain ⟨items, action0⟩ := alt
  simp only [stmtAlt, cacheInvB]
  rw [printAction_st]
  exact stmtItems_cache items _ _ _ isG h

theorem stmtAlt_safe (st : GenSt) (alt : Alt) (isL isG : Bool) (g : String)
    (hg : isRetB g = false) (hcache : cacheInvB st = true)
    (hcl : st.cleanupStatements = [g]) :
    ∀ p, retGuardedB g p ((stmtAlt st alt isL isG).1.map Prod.snd) = true := by
  obtain ⟨items, action0⟩ := alt
  intro p
  simp only [stmtAlt, List.map_append]
  refine retSafe_append g _ _ (retSafe_append g _ _ (retSafe_append g _ _
    (retSafe_append g _ _ (retSafe_append g _ _ (retSafe_append g _ _ ?_ ?_) ?_) ?_) ?_) ?_) ?_ p
  · refine retSafe_mapped_ite g _ _ _ ?_ (retSafe_nil g)
    intro q
    simp only [List.map_cons, List.map_nil]
    exact retSafe_single g _ (by decide) q
  · intro q
    simp only [List.map_cons, List.map_nil]
    refine retSafe_single g _ ?_ q
    cases isL <;> decide
  · intro q
    rw [shift1_map_snd]
    simp only [List.map_append]
    refine retSafe_append g _ _ ?_ ?_ q
    · refine retSafe_mapped_ite g _ _ _ ?_ (retSafe_nil g)
      intro q2
      simp only [List.map_cons, List.map_nil]
      exact retSafe_single g _ (by decide) q2
    · exact stmtItems_safe g items _ none _ isG hcache
  · intro q
    simp only [List.map_cons, List.map_nil]
    exact retSafe_single g _ (by decide) q
  · intro q
    rw [shift1_map_snd]
    refine printAction_safe _ _ _ _ isG isL _ g hg ?_ q
    rw [stmtItems_cleanup]
    exact hcl
  · intro q
    simp only [List.map_cons, List.map_nil]
    exact retSafe_single g _ (by decide) q
  · refine retSafe_mapped_ite g _ _ _ ?_ (retSafe_nil g)
    intro q
    simp only [List.map_cons, List.map_nil]
    exact retSafe_single g _ (by decide) q

theorem stmtAlts_cleanup : ∀ (alts : List Alt) (st : GenSt) (isL isG : Bool),
    (stmtAlts st alts isL isG).2.cleanupStatements = st.cleanupStatements := by
  intro alts
  induction alts with
  | nil => intro st isL isG; rfl
  | cons a rest ih =>
    intro st isL isG
    show (stmtAlts (stmtAlt st a isL isG).2 rest isL isG).2.cleanupStatements = _
    rw [ih, stmtAlt_cleanup]

theorem stmtAlts_cache : ∀ (alts : List Alt) (st : GenSt) (isL isG : Bool),
    cacheInvB st = true → cacheInvB (stmtAlts st alts isL isG).2 = true := by
  intro alts
  induction alts with
  | nil => intro st isL isG h; exact h
  | cons a rest ih =>
    intro st isL isG h
    show cacheInvB (stmtAlts (stmtAlt st a isL isG).2 rest isL isG).2 = true
    exact ih _ isL isG (stmtAlt_cache st a isL isG h)

theorem stmtAlts_safe (g : String) (hg : isRetB g = false) : ∀ (alts : List Alt)
    (st : GenSt) (isL isG : Bool), cacheInvB st = true →
    st.cleanupStatements = [g] →
    ∀ p, retGuardedB g p ((stmtAlts st alts isL isG).1.map Prod.snd) = true := by
  intro alts
  induction alts with
  | nil => intro st isL isG h1 h2 p; rfl
  | cons a rest ih =>
    intro st isL isG h1 h2 p
    show retGuardedB g p (((stmtAlt st a isL isG).1 ++
        (stmtAlts (stmtAlt st a isL isG).2 rest isL isG).1).map Prod.snd) = true
    rw [List.map_append]
    refine retSafe_append g _ _ (stmtAlt_safe st a isL isG g hg h1 h2) ?_ p
    refine ih _ isL isG (stmtAlt_cache st a isL isG h1) ?_
    rw [stmtAlt_cleanup]
    exact h2

end Pegen

namespace Pegen

theorem ruleDecorators_ne (r : Rule) : (ruleDecorators r).isEmpty = false := by
  unfold ruleDecorators
  split_ifs <;> rfl

theorem isRetB_header (r : Rule) : isRetB (ruleHeaderLine r) = false := by
  unfold ruleHeaderLine
  rw [ruleDecorators_ne]
  simp only [Bool.false_eq_true, if_false, strAppend_assoc]
  exact isRetB_app2 "(" "decorated-defn" _ (by decide)

/-- C10 (amended): for every rule whose name ends in without_invalid, emitted
from a state with no pending cleanup statements and a well-formed call cache,
the function saves the previous invalid-rule-dispatch flag and disables it at
entry, every emitted return statement (a line printed through add_return,
starting with the return form) is immediately preceded by the restore
statement, and the cleanup statement is popped after the rule so the final
state again carries no cleanup statement. The cut-triggered early return
inside a when form is not printed through add_return and is therefore not
preceded by the restore statement, which is why the original claim over all
return paths fails. -/
theorem claim10_amended (st : GenSt) (r : Rule)
    (hwi : strTrails r.name "without_invalid" = true)
    (hcl : st.cleanupStatements = [])
    (hcache : cacheInvB st = true) :
    (∀ p, retGuardedB invalidCleanupStmt p ((visitRule st r).1.map Prod.snd) = true) ∧
    "(def _prev_call_invalid (self :call_invalid_rules))" ∈ (visitRule st r).1.map Prod.snd ∧
    "(set self :call_invalid_rules False)" ∈ (visitRule st r).1.map Prod.snd ∧
    (visitRule st r).2.cleanupStatements = [] := by
  have hg : isRetB invalidCleanupStmt = false := by decide
  have hst1 : ({ st with cleanupStatements :=
      st.cleanupStatements ++ [invalidCleanupStmt] } : GenSt).cleanupStatements =
      [invalidCleanupStmt] := by
    show st.cleanupStatements ++ [invalidCleanupStmt] = [invalidCleanupStmt]
    rw [hcl]
    rfl
  have hbody : (stmtAlts ({ st with cleanupStatements :=
      st.cleanupStatements ++ [invalidCleanupStmt] } : GenSt) r.flatten.alts
        r.isLoop r.isGather).2.cleanupStatements = [invalidCleanupStmt] := by
    rw [stmtAlts_cleanup]
    exact hst1
  simp only [visitRule, if_pos hwi, stmtRhs]
  refine ⟨?_, ?_, ?_, ?_⟩
  · intro p
    simp only [List.map_cons, List.map_append, shift1_map_snd, List.map_nil,
      strAppend_assoc]
    refine retSafe_cons _ _ _ (isRetB_header r) ?_ p
    refine retSafe_append _ _ _ ?_ ?_
    · refine retSafe_append _ _ _ (retSafe_append _ _ _ (retSafe_append _ _ _
        (retSafe_append _ _ _ (retSafe_append _ _ _ (retSafe_append _ _ _
          (retSafe_append _ _ _ ?_ ?_) ?_) ?_) ?_) ?_) ?_) ?_
      · intro q
        refine retSafe_single _ _ ?_ q
        exact isRetB_app1 _ _ (by decide)
      · refine retSafe_mapped_ite _ _ _ _ ?_ (retSafe_nil _)
        intro q
        simp only [List.map_cons, List.map_nil]
        exact retSafe_single _ _ (by decide) q
      · intro q
        refine retSafe_cons _ _ _ (by decide) ?_ q
        exact retSafe_single _ _ (by decide)
      · intro q
        exact retSafe_single _ _ (by decide) q
      · refine retSafe_mapped_ite _ _ _ _ ?_ (retSafe_nil _)
        intro q
        simp only [List.map_cons, List.map_nil]
        refine retSafe_cons _ _ _ (by decide) ?_ q
        exact retSafe_single _ _ (by decide)
      · refine retSafe_mapped_ite _ _ _ _ ?_ (retSafe_nil _)
        intro q
        simp only [List.map_cons, List.map_nil]
        exact retSafe_single _ _ (by decide) q
      · exact stmtAlts_safe invalidCleanupStmt hg r.flatten.alts _ r.isLoop r.isGather
          hcache hst1
      · intro q
        rw [addReturn_map_snd _ _ invalidCleanupStmt hbody]
        exact retSafe_guard_ret _ _ hg q
    · intro q
      exact retSafe_single _ _ (by decide) q
  · simp [shift1_map_snd]
  · simp [shift1_map_snd]
  · show ((stmtAlts _ _ _ _).2.cleanupStatements).dropLast = []
    rw [hbody]
    rfl

/-- C10 witness: the amended theorem evaluated on the concrete
without_invalid rule of the counterexample grammar. -/
theorem claim10_witness :
    retGuardedB invalidCleanupStmt ""
      ((visitRule (initSt exG6) exRuleWI).1.map Prod.snd) = true ∧
    "(def _prev_call_invalid (self :call_invalid_rules))" ∈
      (visitRule (initSt exG6) exRuleWI).1.map Prod.snd ∧
    "(set self :call_invalid_rules False)" ∈
      (visitRule (initSt exG6) exRuleWI).1.map Prod.snd ∧
    (visitRule (initSt exG6) exRuleWI).2.cleanupStatements = [] := by
  have h := claim10_amended (initSt exG6) exRuleWI (by decide) rfl (by decide)
  exact ⟨h.1 "", h.2.1, h.2.2.1, h.2.2.2⟩

end Pegen

namespace Pegen

theorem decodeDigits_append_digit (xs : List Char) (d : Char) :
    decodeDigits (xs ++ [d]) = 10 * decodeDigits xs + (d.toNat - 48) := by
  induction xs with
  | nil => simp [decodeDigits]
  | cons c cs ih =>
    simp only [List.cons_append, decodeDigits, List.append_eq, ih, List.length_append,
      List.length_cons, List.length_nil]
    ring

theorem digitChar_toNat (n : Nat) (h : n < 10) : (digitChar n).toNat = 48 + n := by
  interval_cases n <;> rfl

theorem natStrAux_decode : ∀ (fuel n : Nat), n < fuel →
    decodeDigits (natStrAux n fuel) = n := by
  intro fuel
  induction fuel with
  | zero => intro n h; omega
  | succ f ih =>
    intro n h
    by_cases h10 : n < 10
    · simp only [natStrAux, if_pos h10, decodeDigits, List.length_nil, pow_zero,
        digitChar_toNat n h10]
      omega
    · simp only [natStrAux, if_neg h10]
      rw [decodeDigits_append_digit, ih (n / 10) (by omega), digitChar_toNat (n % 10) (by omega)]
      omega

theorem natStr_inj {a b : Nat} (h : natStr a = natStr b) : a = b := by
  have h2 : natStrAux a (a + 1) = natStrAux b (b + 1) := congrArg String.data h
  have h3 := congrArg decodeDigits h2
  rwa [natStrAux_decode _ a (Nat.lt_succ_self a), natStrAux_decode _ b (Nat.lt_succ_self b)] at h3

theorem strAppend_cancel_left {p a b : String} (h : p ++ a = p ++ b) : a = b := by
  have hd : p.data ++ a.data = p.data ++ b.data := by
    rw [← strData_append, ← strData_append, h]
  have h2 := List.append_cancel_left hd
  cases a
  cases b
  exact congrArg String.mk h2

theorem append_ne_of_mismatch : ∀ (p q : List Char), mismatchB p q = true →
    ∀ (a b : List Char), p ++ a ≠ q ++ b := by
  intro p
  induction p with
  | nil => intro q h; simp [mismatchB] at h
  | cons c cs ih =>
    intro q h a b
    cases q with
    | nil => simp [mismatchB] at h
    | cons d ds =>
      simp only [mismatchB] at h
      by_cases hc : c = d
      · rw [if_pos hc] at h
        subst hc
        intro heq
        simp only [List.cons_append, List.cons.injEq, true_and] at heq
        exact ih ds h a b heq
      · intro heq
        simp only [List.cons_append, List.cons.injEq] at heq
        exact hc heq.1

theorem mkSynName_inj {t t2 : SynTag} {k k2 : Nat} (h : mkSynName t k = mkSynName t2 k2) :
    k = k2 := by
  by_cases ht : t = t2
  · subst ht
    have h2 : synPrefixOf t ++ natStr k = synPrefixOf t ++ natStr k2 := h
    exact natStr_inj (strAppend_cancel_left h2)
  · exfalso
    have h0 : synPrefixOf t ++ natStr k = synPrefixOf t2 ++ natStr k2 := h
    have hd : (synPrefixOf t).data ++ (natStr k).data =
        (synPrefixOf t2).data ++ (natStr k2).data := by
      rw [← strData_append, ← strData_append, h0]
    cases t <;> cases t2 <;> first
      | exact ht rfl
      | exact append_ne_of_mismatch _ _ (by decide) _ _ hd

theorem leadsList_self_append : ∀ (p a : List Char), leadsList p (p ++ a) = true := by
  intro p
  induction p with
  | nil => intro a; rfl
  | cons c cs ih => intro a; simp [leadsList, ih]

theorem strLeads_append_self (p a : String) : strLeads (p ++ a) p = true := by
  unfold strLeads
  rw [strData_append]
  exact leadsList_self_append _ _

theorem mkSynName_syn (t : SynTag) (k : Nat) : synNameB (mkSynName t k) = true := by
  cases t <;> simp [synNameB, mkSynName, synPrefixOf, strLeads_append_self]

theorem SynOk.not_fresh {c : Nat} {n : String} (h : SynOk c n) {t : SynTag} {k : Nat}
    (hk : c < k) : n ≠ mkSynName t k := by
  intro he
  rcases h with h | ⟨t2, k2, hk2, he2⟩
  · rw [he, mkSynName_syn] at h
    simp at h
  · rw [he2] at he
    have := mkSynName_inj he
    omega

theorem SynOk.mono {c c2 : Nat} (hc : c ≤ c2) {n : String} (h : SynOk c n) : SynOk c2 n := by
  rcases h with h | ⟨t, k, hk, he⟩
  · exact Or.inl h
  · exact Or.inr ⟨t, k, le_trans hk hc, he⟩

theorem SynNew_nil (c c2 : Nat) : SynNew c c2 [] := ⟨List.nodup_nil, by simp⟩

theorem SynNew.append {c c1 c2 : Nat} (hc : c ≤ c1) {a b : List String}
    (ha : SynNew c c1 a) (hb : SynNew c1 c2 b) (h12 : c1 ≤ c2) : SynNew c c2 (a ++ b) := by
  refine ⟨?_, ?_⟩
  · rw [List.nodup_append]
    refine ⟨ha.1, hb.1, ?_⟩
    intro n hna hnb
    obtain ⟨t, k, hk1, hk2, he⟩ := ha.2 n hna
    obtain ⟨t2, k2, hl1, hl2, he2⟩ := hb.2 n hnb
    have : k = k2 := mkSynName_inj (by rw [← he, ← he2])
    omega
  · intro n hn
    rcases List.mem_append.mp hn with h | h
    · obtain ⟨t, k, hk1, hk2, he⟩ := ha.2 n h
      exact ⟨t, k, hk1, le_trans hk2 h12, he⟩
    · obtain ⟨t, k, hk1, hk2, he⟩ := hb.2 n h
      exact ⟨t, k, lt_of_le_of_lt hc hk1, hk2, he⟩

theorem VisitExt.refl (st : GenSt) : VisitExt st st :=
  ⟨le_refl _, [], by simp, SynNew_nil _ _⟩

theorem VisitExt.trans {s1 s2 s3 : GenSt} (h12 : VisitExt s1 s2) (h23 : VisitExt s2 s3) :
    VisitExt s1 s3 := by
  obtain ⟨hc12, n12, he12, hn12⟩ := h12
  obtain ⟨hc23, n23, he23, hn23⟩ := h23
  refine ⟨le_trans hc12 hc23, n12 ++ n23, ?_, SynNew.append hc12 hn12 hn23 hc23⟩
  rw [he23, he12, List.append_assoc]

theorem VisitExt_of_frame {st st2 : GenSt} (ht : st2.todo = st.todo)
    (hc : st2.counter = st.counter) : VisitExt st st2 := by
  refine ⟨le_of_eq hc.symm, [], ?_, SynNew_nil _ _⟩
  show st2.todo.map Prod.fst = st.todo.map Prod.fst ++ []
  rw [ht, List.append_nil]

theorem map_fst_overwrite (name : String) (r : Rule) : ∀ (todo : List (String × Rule)),
    (todo.map (fun p => if p.1 == name then (name, r) else p)).map Prod.fst =
      todo.map Prod.fst := by
  intro todo
  induction todo with
  | nil => rfl
  | cons q qs ih =>
    simp only [List.map_cons, ih]
    congr 1
    by_cases h : (q.1 == name) = true
    · rw [if_pos h]
      have h2 : q.1 = name := by simpa using h
      exact h2.symm
    · rw [if_neg h]

theorem todoInsert_names (todo : List (String × Rule)) (name : String) (r : Rule) :
    (todoInsert todo name r).map Prod.fst = todo.map Prod.fst ∨
    (todoInsert todo name r).map Prod.fst = todo.map Prod.fst ++ [name] := by
  unfold todoInsert
  split
  · exact Or.inl (map_fst_overwrite name r todo)
  · right
    rw [List.map_append]
    rfl

theorem ext_of_insert1 (st st2 : GenSt) (n1 : String) (r1 : Rule) (t1 : SynTag) (k1 : Nat)
    (hn1 : n1 = mkSynName t1 k1) (hk1 : st.counter < k1) (hc : k1 ≤ st2.counter)
    (hcc : st.counter ≤ st2.counter) (htodo : st2.todo = todoInsert st.todo n1 r1) :
    VisitExt st st2 := by
  refine ⟨hcc, ?_⟩
  rcases todoInsert_names st.todo n1 r1 with h | h
  · refine ⟨[], ?_, SynNew_nil _ _⟩
    show st2.todo.map Prod.fst = st.todo.map Prod.fst ++ []
    rw [htodo, h, List.append_nil]
  · refine ⟨[n1], ?_, ?_⟩
    · show st2.todo.map Prod.fst = st.todo.map Prod.fst ++ [n1]
      rw [htodo, h]
    · exact ⟨List.nodup_singleton _, fun n hn => by
        rw [List.mem_singleton] at hn
        exact ⟨t1, k1, hk1, hc, hn.trans hn1⟩⟩

theorem ext_of_insert2 (st st2 : GenSt) (n1 n2 : String) (r1 r2 : Rule)
    (t1 t2 : SynTag) (k1 k2 : Nat)
    (hn1 : n1 = mkSynName t1 k1) (hn2 : n2 = mkSynName t2 k2)
    (hk1 : st.counter < k1) (hk2 : st.counter < k2) (hkk : k1 ≠ k2)
    (hc1 : k1 ≤ st2.counter) (hc2 : k2 ≤ st2.counter) (hcc : st.counter ≤ st2.counter)
    (htodo : st2.todo = todoInsert (todoInsert st.todo n1 r1) n2 r2) :
    VisitExt st st2 := by
  refine ⟨hcc, ?_⟩
  rcases todoInsert_names (todoInsert st.todo n1 r1) n2 r2 with h2 | h2 <;>
    rcases todoInsert_names st.todo n1 r1 with h1 | h1
  · refine ⟨[], ?_, SynNew_nil _ _⟩
    show st2.todo.map Prod.fst = st.todo.map Prod.fst ++ []
    rw [htodo, h2, h1, List.append_nil]
  · refine ⟨[n1], ?_, ?_⟩
    · show st2.todo.map Prod.fst = st.todo.map Prod.fst ++ [n1]
      rw [htodo, h2, h1]
    · exact ⟨List.nodup_singleton _, fun n hn => by
        rw [List.mem_singleton] at hn
        exact ⟨t1, k1, hk1, hc1, hn.trans hn1⟩⟩
  · refine ⟨[n2], ?_, ?_⟩
    · show st2.todo.map Prod.fst = st.todo.map Prod.fst ++ [n2]
      rw [htodo, h2, h1]
    · exact ⟨List.nodup_singleton _, fun n hn => by
        rw [List.mem_singleton] at hn
        exact ⟨t2, k2, hk2, hc2, hn.trans hn2⟩⟩
  · refine ⟨[n1, n2], ?_, ?_⟩
    · show st2.todo.map Prod.fst = st.todo.map Prod.fst ++ [n1, n2]
      rw [htodo, h2, h1, List.append_assoc]
      rfl
    · refine ⟨?_, ?_⟩
      · refine List.nodup_cons.mpr ⟨?_, List.nodup_singleton _⟩
        rw [List.mem_singleton]
        intro he
        apply hkk
        exact mkSynName_inj (by rw [← hn1, ← hn2]; exact he)
      · intro n hn
        rcases List.mem_cons.mp hn with h | h
        · exact ⟨t1, k1, hk1, hc1, h.trans hn1⟩
        · rw [List.mem_singleton] at h
          exact ⟨t2, k2, hk2, hc2, h.trans hn2⟩

theorem nameLoop_ext (st : GenSt) (node : Item) (b : Bool) :
    VisitExt st (nameLoop st node b).2 :=
  ext_of_insert1 st _ _ _ (if b then SynTag.loop1 else SynTag.loop0) (st.counter + 1)
    rfl (Nat.lt_succ_self _) (le_refl _) (Nat.le_succ _) rfl

theorem nameNode_ext (st : GenSt) (rhs : Rhs) :
    VisitExt st (nameNode st rhs).2 :=
  ext_of_insert1 st _ _ _ SynTag.tmp (st.counter + 1)
    rfl (Nat.lt_succ_self _) (le_refl _) (Nat.le_succ _) rfl

theorem nameGather_ext (st : GenSt) (sep elem : Item) :
    VisitExt st (nameGather st sep elem).2 :=
  ext_of_insert2 st _ _ _ _ _ SynTag.loop0 SynTag.gather (st.counter + 2) (st.counter + 1)
    rfl rfl (by omega) (Nat.lt_succ_self _) (by omega)
    (le_refl _) (Nat.le_succ_of_le (le_refl _)) (Nat.le_add_right _ 2) rfl

end Pegen

namespace Pegen

theorem cmVisit_ext (st : GenSt) : ∀ i : Item, VisitExt st (cmVisit st i).2 := by
  refine cmVisit.induct st
    (fun i => VisitExt st (cmVisit st i).2)
    (fun rhs => VisitExt st (cmVisitRhs st rhs).2)
    (fun id alts => VisitExt st (cmRhsBody st id alts).2)
    ?_ ?_ ?_ ?_ ?_ ?_ ?_ ?_ ?_ ?_ ?_ ?_ ?_ ?_ ?_ ?_ ?_ ?_ ?_ ?_ ?_ ?_
  · intro v
    simp only [cmVisit]
    exact VisitExt.refl st
  · intro v
    simp only [cmVisit]
    split_ifs <;> exact VisitExt_of_frame rfl rfl
  · intro rhs ih
    simp only [cmVisit_group]
    exact ih
  · intro i r ht ih
    have ht2 : strTrails (cmVisit st i).1.2 "," = true := ht
    have key : cmVisit st (Item.opt i) = ((some "opt", (cmVisit st i).1.2), (cmVisit st i).2) := by
      simp only [cmVisit]
      rw [if_pos ht2]
    rw [key]
    exact ih
  · intro i r ht ih
    have ht2 : ¬ strTrails (cmVisit st i).1.2 "," = true := ht
    have key : cmVisit st (Item.opt i) =
        ((some "opt", (cmVisit st i).1.2 ++ ","), (cmVisit st i).2) := by
      simp only [cmVisit]
      rw [if_neg ht2]
    rw [key]
    exact ih
  · intro id i v heq
    have key : cmVisit st (Item.repeat0 id i) = (v, st) := by
      simp only [cmVisit]
      rw [heq]
    rw [key]
    exact VisitExt.refl st
  · intro id i heq
    have key : cmVisit st (Item.repeat0 id i) =
        ((some (nameLoop st i false).1, "(self " ++ (nameLoop st i false).1 ++ "),"),
         { (nameLoop st i false).2 with
           cache := ((id, CKind.rep0),
             (some (nameLoop st i false).1, "(self " ++ (nameLoop st i false).1 ++ "),")) ::
               (nameLoop st i false).2.cache }) := by
      simp only [cmVisit]
      rw [heq]
    rw [key]
    exact VisitExt.trans (nameLoop_ext st i false) (VisitExt_of_frame rfl rfl)
  · intro id i v heq
    have key : cmVisit st (Item.repeat1 id i) = (v, st) := by
      simp only [cmVisit]
      rw [heq]
    rw [key]
    exact VisitExt.refl st
  · intro id i heq
    have key : cmVisit st (Item.repeat1 id i) =
        ((some (nameLoop st i true).1, "(self " ++ (nameLoop st i true).1 ++ ")"),
         { (nameLoop st i true).2 with
           cache := ((id, CKind.rep1),
             (some (nameLoop st i true).1, "(self " ++ (nameLoop st i true).1 ++ ")")) ::
               (nameLoop st i true).2.cache }) := by
      simp only [cmVisit]
      rw [heq]
    rw [key]
    exact VisitExt.trans (nameLoop_ext st i true) (VisitExt_of_frame rfl rfl)
  · intro id sepi e v heq
    have key : cmVisit st (Item.gather id sepi e) = (v, st) := by
      simp only [cmVisit]
      rw [heq]
    rw [key]
    exact VisitExt.refl st
  · intro id sepi e heq
    have key : cmVisit st (Item.gather id sepi e) =
        ((some (nameGather st sepi e).1, "(self " ++ (nameGather st sepi e).1 ++ ")"),
         { (nameGather st sepi e).2 with
           cache := ((id, CKind.gather),
             (some (nameGather st sepi e).1, "(self " ++ (nameGather st sepi e).1 ++ ")")) ::
               (nameGather st sepi e).2.cache }) := by
      simp only [cmVisit]
      rw [heq]
    rw [key]
    exact VisitExt.trans (nameGather_ext st sepi e) (VisitExt_of_frame rfl rfl)
  · intro i ih
    simp only [cmVisit]
    exact ih
  · intro i ih
    simp only [cmVisit]
    exact ih
  · simp only [cmVisit]
    exact VisitExt.refl st
  · intro rhs ih
    simp only [cmVisit]
    exact ih
  · intro v
    simp only [cmVisit]
    exact VisitExt.refl st
  · intro v
    simp only [cmVisit]
    exact VisitExt.refl st
  · intro i h1 h2 h3
    cases i
    case group rhs => exact absurd rfl (h1 rhs)
    case stringLeaf v => exact absurd rfl (h2 v)
    case nameLeaf v => exact absurd rfl (h3 v)
    all_goals
      simp only [cmVisit]
      exact VisitExt.refl st
  · intro id a v heq
    have key : cmVisitRhs st (Rhs.mk id a) = (v, st) := by
      simp only [cmVisitRhs]
      rw [heq]
    rw [key]
    exact VisitExt.refl st
  · intro id a heq ih
    have key : cmVisitRhs st (Rhs.mk id a) =
        ((cmRhsBody st id a).1,
         { (cmRhsBody st id a).2 with
           cache := ((id, CKind.rhs), (cmRhsBody st id a).1) :: (cmRhsBody st id a).2.cache }) := by
      simp only [cmVisitRhs]
      rw [heq]
    rw [key]
    exact VisitExt.trans ih (VisitExt_of_frame rfl rfl)
  · intro id oname inner _act ih
    simp only [cmRhsBody]
    exact ih
  · intro id other hno
    rw [cmRhsBody.eq_2 st id other hno]
    exact nameNode_ext st (Rhs.mk id other)

end Pegen

namespace Pegen

theorem stmtNamedItem_ext (st : GenSt) (ni : NamedItem) (used : Option (List String))
    (unr : Bool) : VisitExt st (stmtNamedItem st ni used unr).2 := by
  obtain ⟨oname, item⟩ := ni
  have h := cmVisit_ext st item
  simp only [stmtNamedItem]
  split
  · exact h
  · split_ifs
    · exact h
    · exact h
    · exact VisitExt.trans h (VisitExt_of_frame rfl rfl)

theorem stmtItems_ext : ∀ (items : List NamedItem) (st : GenSt)
    (used : Option (List String)) (unr isG : Bool),
    VisitExt st (stmtItems st items used unr isG).2 := by
  intro items
  induction items with
  | nil => intro st u r g; exact VisitExt.refl st
  | cons ni rest ih =>
    intro st u r g
    show VisitExt st (stmtItems (stmtNamedItem st ni u r).2 rest u r g).2
    exact VisitExt.trans (stmtNamedItem_ext st ni u r) (ih _ u r g)

theorem ext_alt_core (st : GenSt) (items : List NamedItem) (act : Option String)
    (loc unr isG isL hasInv : Bool) (lv : List String) :
    VisitExt st ({ (printAction (stmtItems { st with localVarNames := [] } items none unr isG).2
      act loc unr isG isL hasInv).2 with localVarNames := lv }) := by
  refine VisitExt.trans (VisitExt.trans (VisitExt_of_frame rfl rfl)
    (stmtItems_ext items { st with localVarNames := [] } none unr isG))
    (VisitExt_of_frame ?_ ?_)
  · show (printAction (stmtItems { st with localVarNames := [] } items none unr isG).2
      act loc unr isG isL hasInv).2.todo = _
    rw [printAction_st]
  · show (printAction (stmtItems { st with localVarNames := [] } items none unr isG).2
      act loc unr isG isL hasInv).2.counter = _
    rw [printAction_st]

theorem stmtAlt_ext (st : GenSt) (a : Alt) (isL isG : Bool) :
    VisitExt st (stmtAlt st a isL isG).2 := by
  obtain ⟨items, action0⟩ := a
  exact ext_alt_core st items _ _ _ isG isL _ _

theorem stmtAlts_ext : ∀ (alts : List Alt) (st : GenSt) (isL isG : Bool),
    VisitExt st (stmtAlts st alts isL isG).2 := by
  intro alts
  induction alts with
  | nil => intro st l g; exact VisitExt.refl st
  | cons a rest ih =>
    intro st l g
    show VisitExt st (stmtAlts (stmtAlt st a l g).2 rest l g).2
    exact VisitExt.trans (stmtAlt_ext st a l g) (ih _ l g)

theorem visitRule_ext (st : GenSt) (r : Rule) : VisitExt st (visitRule st r).2 := by
  simp only [visitRule, stmtRhs]
  split_ifs with hwi
  · have h1 : VisitExt st
        { st with cleanupStatements := st.cleanupStatements ++ [invalidCleanupStmt] } :=
      VisitExt_of_frame rfl rfl
    have h2 := stmtAlts_ext r.flatten.alts
      { st with cleanupStatements := st.cleanupStatements ++ [invalidCleanupStmt] }
      r.isLoop r.isGather
    exact VisitExt.trans (VisitExt.trans h1 h2) (VisitExt_of_frame rfl rfl)
  · exact stmtAlts_ext r.flatten.alts st r.isLoop r.isGather

end Pegen

namespace Pegen

theorem map_fst_filter (name : String) : ∀ (todo : List (String × Rule)),
    (todo.filter (fun p => ¬(p.1 == name))).map Prod.fst =
      (todo.map Prod.fst).filter (fun n => ¬(n == name)) := by
  intro todo
  induction todo with
  | nil => rfl
  | cons q qs ih =>
    simp only [List.filter_cons, List.map_cons]
    by_cases h : (q.1 == name) = true
    · rw [if_neg (by simp [h]), if_neg (by simp [h])]
      exact ih
    · rw [if_pos (by simp [h]), if_pos (by simp [h]), List.map_cons, ih]

theorem todoRemove_names (st : GenSt) (name : String) :
    todoNames (todoRemove st name) =
      (todoNames st).filter (fun n => ¬(n == name)) :=
  map_fst_filter name st.todo

theorem processSnapshot_inv : ∀ (snap : List (String × Rule)) (st : GenSt) (P : List String),
    (todoNames st).Nodup →
    (∀ n ∈ todoNames st, n ∉ P) →
    (∀ n ∈ todoNames st, SynOk st.counter n) →
    (∀ n ∈ P, SynOk st.counter n) →
    (∀ q ∈ snap, q.1 ∈ todoNames st) →
    (snap.map Prod.fst).Nodup →
    (todoNames (processSnapshot st snap).2).Nodup ∧
    (∀ n ∈ todoNames (processSnapshot st snap).2, n ∉ P ++ snap.map Prod.fst) ∧
    (∀ n ∈ todoNames (processSnapshot st snap).2,
      SynOk (processSnapshot st snap).2.counter n) ∧
    (∀ n ∈ P ++ snap.map Prod.fst, SynOk (processSnapshot st snap).2.counter n) ∧
    st.counter ≤ (processSnapshot st snap).2.counter := by
  intro snap
  induction snap with
  | nil =>
    intro st P h1 h2 h3 h4 _ _
    exact ⟨h1, by simpa using h2, h3, by simpa using h4, le_refl _⟩
  | cons q rest ih =>
    obtain ⟨name, rule⟩ := q
    intro st P h1 h2 h3 h4 h5 h6
    have hname : name ∈ todoNames st := h5 (name, rule) (List.mem_cons_self _ _)
    have hrestname : ∀ p ∈ rest, p.1 ∈ todoNames st :=
      fun p hp => h5 p (List.mem_cons_of_mem _ hp)
    have h6a : name ∉ rest.map Prod.fst := (List.nodup_cons.mp h6).1
    have h6b : (rest.map Prod.fst).Nodup := (List.nodup_cons.mp h6).2
    have hrem := todoRemove_names st name
    obtain ⟨hcc, new, hnames, hnewnd, hnewmem⟩ := visitRule_ext (todoRemove st name) rule
    have hc1 : (todoRemove st name).counter = st.counter := rfl
    -- membership facts about the post-visit worklist
    have hmem2 : ∀ n ∈ todoNames (visitRule (todoRemove st name) rule).2,
        (n ∈ todoNames st ∧ ¬(n = name)) ∨
        (∃ t k, st.counter < k ∧ k ≤ (visitRule (todoRemove st name) rule).2.counter ∧
          n = mkSynName t k) := by
      intro n hn
      rw [hnames] at hn
      rcases List.mem_append.mp hn with h | h
      · rw [hrem] at h
        rw [List.mem_filter] at h
        refine Or.inl ⟨h.1, ?_⟩
        have := h.2
        simpa using this
      · exact Or.inr (hnewmem n h)
    have hsyn2 : ∀ n ∈ todoNames (visitRule (todoRemove st name) rule).2,
        SynOk (visitRule (todoRemove st name) rule).2.counter n := by
      intro n hn
      rcases hmem2 n hn with ⟨hmem, _⟩ | ⟨t, k, _, hk2, he⟩
      · exact SynOk.mono hcc (h3 n hmem)
      · exact Or.inr ⟨t, k, hk2, he⟩
    have hnd2 : (todoNames (visitRule (todoRemove st name) rule).2).Nodup := by
      rw [hnames, List.nodup_append]
      refine ⟨?_, hnewnd, ?_⟩
      · rw [hrem]
        exact h1.filter _
      · intro n hnf hnn
        rw [hrem, List.mem_filter] at hnf
        obtain ⟨t, k, hk1, _, he⟩ := hnewmem n hnn
        exact SynOk.not_fresh (h3 n hnf.1) hk1 he
    have hdisj2 : ∀ n ∈ todoNames (visitRule (todoRemove st name) rule).2,
        n ∉ P ++ [name] := by
      intro n hn hmem
      rcases List.mem_append.mp hmem with hP | hN
      · rcases hmem2 n hn with ⟨hmem3, _⟩ | ⟨t, k, hk1, _, he⟩
        · exact h2 n hmem3 hP
        · exact SynOk.not_fresh (h4 n hP) hk1 he
      · rw [List.mem_singleton] at hN
        subst hN
        rcases hmem2 n hn with ⟨_, hne⟩ | ⟨t, k, hk1, _, he⟩
        · exact hne rfl
        · exact SynOk.not_fresh (h3 n hname) hk1 he
    have hsynP2 : ∀ n ∈ P ++ [name],
        SynOk (visitRule (todoRemove st name) rule).2.counter n := by
      intro n hmem
      rcases List.mem_append.mp hmem with hP | hN
      · exact SynOk.mono hcc (h4 n hP)
      · rw [List.mem_singleton] at hN
        subst hN
        exact SynOk.mono hcc (h3 n hname)
    have hrest2 : ∀ p ∈ rest, p.1 ∈ todoNames (visitRule (todoRemove st name) rule).2 := by
      intro p hp
      rw [hnames]
      apply List.mem_append_left
      rw [hrem, List.mem_filter]
      refine ⟨hrestname p hp, ?_⟩
      have : p.1 ≠ name := by
        intro he
        exact h6a (he ▸ List.mem_map_of_mem Prod.fst hp)
      simpa using this
    have key := ih (visitRule (todoRemove st name) rule).2 (P ++ [name])
      hnd2 hdisj2 hsyn2 hsynP2 hrest2 h6b
    have hps : (processSnapshot st ((name, rule) :: rest)).2 =
        (processSnapshot (visitRule (todoRemove st name) rule).2 rest).2 := rfl
    rw [hps]
    refine ⟨key.1, ?_, key.2.2.1, ?_, ?_⟩
    · intro n hn hmem
      refine key.2.1 n hn ?_
      rw [List.append_assoc]
      rw [List.map_cons] at hmem
      simpa using hmem
    · intro n hmem
      refine key.2.2.2.1 n ?_
      rw [List.append_assoc]
      rw [List.map_cons] at hmem
      simpa using hmem
    · calc st.counter ≤ (visitRule (todoRemove st name) rule).2.counter := hcc
        _ ≤ _ := key.2.2.2.2

theorem drain_empty (fuel : Nat) (st : GenSt) (h : st.todo.isEmpty = true) :
    drain fuel st = some ([], [], st) := by
  conv_lhs => rw [drain.eq_def]
  show (if st.todo.isEmpty = true then some ([], [], st) else _) = some ([], [], st)
  rw [if_pos h]

theorem drain_zero (st : GenSt) (h : ¬ st.todo.isEmpty = true) : drain 0 st = none := by
  conv_lhs => rw [drain.eq_def]
  show (if st.todo.isEmpty = true then some ([], [], st) else none) = none
  rw [if_neg h]

theorem drain_succ (f : Nat) (st : GenSt) (h : ¬ st.todo.isEmpty = true) :
    drain (f + 1) st =
      match drain f (processSnapshot st st.todo).2 with
      | none => none
      | some (tr, ls, st2) =>
          some (st.todo ++ tr, (processSnapshot st st.todo).1 ++ ls, st2) := by
  conv_lhs => rw [drain.eq_def]
  show (if st.todo.isEmpty = true then some ([], [], st) else _) = _
  rw [if_neg h]

theorem drain_inv : ∀ (fuel : Nat) (st : GenSt) (P : List String),
    P.Nodup →
    (todoNames st).Nodup →
    (∀ n ∈ todoNames st, n ∉ P) →
    (∀ n ∈ todoNames st, SynOk st.counter n) →
    (∀ n ∈ P, SynOk st.counter n) →
    ∀ tr ls st2, drain fuel st = some (tr, ls, st2) →
      (P ++ tr.map Prod.fst).Nodup ∧
      (∀ n ∈ todoNames st, n ∈ tr.map Prod.fst) ∧
      st2.todo = [] := by
  intro fuel
  induction fuel with
  | zero =>
    intro st P hP h1 h2 h3 h4 tr ls st2 hd
    by_cases he : st.todo.isEmpty = true
    · rw [drain_empty 0 st he] at hd
      simp only [Option.some.injEq, Prod.mk.injEq] at hd
      obtain ⟨htr, _, hst⟩ := hd
      have htodo : st.todo = [] := by
        cases hlt : st.todo with
        | nil => rfl
        | cons a l => rw [hlt] at he; simp [List.isEmpty] at he
      refine ⟨?_, ?_, ?_⟩
      · rw [← htr]
        simpa using hP
      · intro n hn
        rw [show todoNames st = st.todo.map Prod.fst from rfl, htodo] at hn
        simp at hn
      · rw [← hst]
        exact htodo
    · rw [drain_zero st he] at hd
      exact Option.noConfusion hd
  | succ f ih =>
    intro st P hP h1 h2 h3 h4 tr ls st2 hd
    by_cases he : st.todo.isEmpty = true
    · rw [drain_empty (f + 1) st he] at hd
      simp only [Option.some.injEq, Prod.mk.injEq] at hd
      obtain ⟨htr, _, hst⟩ := hd
      have htodo : st.todo = [] := by
        cases hlt : st.todo with
        | nil => rfl
        | cons a l => rw [hlt] at he; simp [List.isEmpty] at he
      refine ⟨?_, ?_, ?_⟩
      · rw [← htr]
        simpa using hP
      · intro n hn
        rw [show todoNames st = st.todo.map Prod.fst from rfl, htodo] at hn
        simp at hn
      · rw [← hst]
        exact htodo
    · rw [drain_succ f st he] at hd
      have hsnap : ∀ q ∈ st.todo, q.1 ∈ todoNames st :=
        fun q hq => List.mem_map_of_mem Prod.fst hq
      have hsnapnd : (st.todo.map Prod.fst).Nodup := h1
      have inv := processSnapshot_inv st.todo st P h1 h2 h3 h4 hsnap hsnapnd
      cases hdr : drain f (processSnapshot st st.todo).2 with
      | none =>
        rw [hdr] at hd
        exact Option.noConfusion hd
      | some res =>
        obtain ⟨tr1, ls1, st3⟩ := res
        rw [hdr] at hd
        simp only [Option.some.injEq, Prod.mk.injEq] at hd
        obtain ⟨htr, _, hst⟩ := hd
        have hP2 : (P ++ todoNames st).Nodup := by
          rw [List.nodup_append]
          exact ⟨hP, h1, fun a haP haT => h2 a haT haP⟩
        have key := ih (processSnapshot st st.todo).2 (P ++ todoNames st)
          hP2 inv.1 inv.2.1 inv.2.2.1 inv.2.2.2.1 tr1 ls1 st3 hdr
        refine ⟨?_, ?_, ?_⟩
        · rw [← htr, List.map_append, ← List.append_assoc]
          exact key.1
        · intro n hn
          rw [← htr, List.map_append]
          exact List.mem_append_left _ hn
        · rw [← hst]
          exact key.2.2
      
end Pegen

namespace Pegen

/-- C7: the generate loop drains the worklist to empty before the trailing
keyword tables and the trailer are written (the final state holds an empty
worklist and the tables are rendered from it after all rule lines), every
authored rule is processed, and the processed-rule trace is duplicate-free,
so no rule function is emitted twice. Hypotheses scope the claim to
well-formed grammars: authored rule names are distinct (the source worklist
is a dict keyed by name) and no authored name has the shape of a synthetic
rule name. -/
theorem claim7_worklist_drained (g : Grammar) (filename : String) (fuel : Nat)
    (hnd : ((initSt g).todo.map Prod.fst).Nodup)
    (hsf : ∀ n ∈ (initSt g).todo.map Prod.fst, synNameB n = false)
    (tr : List (String × Rule)) (ls : List OutLine) (st2 : GenSt)
    (hrun : runGenerate g filename fuel = some (tr, ls, st2)) :
    st2.todo = [] ∧
    (tr.map Prod.fst).Nodup ∧
    (∀ r0 ∈ g.rules, r0.name ∈ tr.map Prod.fst) ∧
    ∃ pre, ls = pre ++ ((0, "") :: keywordTableLines st2) ++
      [(0, rstripNl (metasGetD g "trailer"
        (strReplace moduleSuffixT "\x7bclass_name\x7d" (metasGetD g "class" "GeneratedParser"))))] := by
  simp only [runGenerate] at hrun
  cases hd : drain fuel (initSt g) with
  | none =>
    rw [hd] at hrun
    exact Option.noConfusion hrun
  | some res =>
    obtain ⟨tr0, dl, st1⟩ := res
    rw [hd] at hrun
    simp only [Option.some.injEq, Prod.mk.injEq] at hrun
    obtain ⟨htr, hls, hst⟩ := hrun
    have key := drain_inv fuel (initSt g) []
      List.nodup_nil hnd
      (fun n _ hmem => absurd hmem (List.not_mem_nil n))
      (fun n hn => Or.inl (hsf n hn))
      (fun n hn => absurd hn (List.not_mem_nil n))
      tr0 dl st1 hd
    subst htr
    subst hst
    subst hls
    refine ⟨key.2.2, by simpa using key.1, ?_, ?_⟩
    · intro r0 hr0
      exact key.2.1 r0.name (List.mem_map_of_mem Prod.fst (List.mem_map_of_mem _ hr0))
    · exact ⟨_, rfl⟩

/-- C7 witness: a concrete run on the one-rule grammar; the final worklist is
empty, the processed trace is duplicate-free and contains the authored rule. -/
theorem claim7_witness :
    ((runGenerate exG4 "g.gram" 3).getD ([], [], initSt exG4)).2.2.todo = [] ∧
    (((runGenerate exG4 "g.gram" 3).getD ([], [], initSt exG4)).1.map Prod.fst).Nodup ∧
    "start" ∈ ((runGenerate exG4 "g.gram" 3).getD ([], [], initSt exG4)).1.map Prod.fst := by
  have hsome : runGenerate exG4 "g.gram" 3 =
      some ((runGenerate exG4 "g.gram" 3).getD ([], [], initSt exG4)) := rfl
  have h := claim7_worklist_drained exG4 "g.gram" 3 (by decide) (by decide)
    _ _ _ hsome
  refine ⟨h.1, h.2.1, ?_⟩
  exact h.2.2.1 exRule4 (List.mem_cons_self _ _)

end Pegen
